import Mathlib

/-!
# ENS210 temperature / humidity driver (`7Semi_ENS210.cpp`)

A shallow embedding of the driver's register protocol layer:

* `TwoWire` is a scripted stand-in for the Arduino I2C bus object the driver talks to;
* `ENS210_7Semi.readReg`, `writeReg`, `getCRC7`, `readRaw`, `read`, `getAbsoluteHumidity`,
  `begin`, `reset`, `startSingleShot`, `startContinuous`, `stop`, `available` and
  `readDeviceId` follow the C++ member functions statement by statement;
* delays are not modelled;
* machine integers are natural numbers, reduced modulo `2 ^ 32` (or `2 ^ 8`) wherever the C++
  type could wrap;
* `float` values are idealised as elements of a division ring `F` (exact arithmetic, no
  rounding); the theorems instantiate `F := ℚ`;
* a member function whose C++ behaviour is undefined (dereferencing a null bus pointer) yields
  `none`.
-/

/-! ## The two-wire bus -/

/-- One call made on the bus object, in the order the driver made it. -/
inductive WireOp where
  | beginTransmission (address : Nat)
  | write (data : Nat)
  | endTransmission (sendStop : Bool)
  | requestFrom (address quantity : Nat)
  | read
  | begin (pins : Option (Nat × Nat))
  | setClock (frequency : Nat)
deriving DecidableEq

/-- Scripted two-wire bus. `status` holds the codes that the coming `endTransmission` calls
return (0 means acknowledged), `replies` the bytes the device delivers to the coming
`requestFrom` calls, `rx` the receive buffer, and `log` every call made so far. -/
structure TwoWire where
  status : List Nat
  replies : List (List Nat)
  rx : List Nat
  log : List WireOp
deriving DecidableEq

namespace TwoWire

/-- Models `Wire.beginTransmission(address)`. -/
def beginTransmission (w : TwoWire) (address : Nat) : TwoWire :=
  { w with log := w.log ++ [WireOp.beginTransmission address] }

/-- Models `Wire.write(data)`; the driver ignores the returned count. -/
def write (w : TwoWire) (data : Nat) : TwoWire :=
  { w with log := w.log ++ [WireOp.write data] }

/-- Models `Wire.endTransmission(sendStop)`: the next scripted status code (a `uint8_t`); a bus whose
script is exhausted reports error code 4. -/
def endTransmission (w : TwoWire) (sendStop : Bool) : Nat × TwoWire :=
  match w.status with
  | [] => (4, { w with log := w.log ++ [WireOp.endTransmission sendStop] })
  | s :: rest =>
    (s % 256, { w with status := rest, log := w.log ++ [WireOp.endTransmission sendStop] })

/-- Models `Wire.requestFrom(address, quantity)`: at most `quantity` bytes of the next scripted reply
are placed in the receive buffer; the driver ignores the returned count. -/
def requestFrom (w : TwoWire) (address quantity : Nat) : TwoWire :=
  match w.replies with
  | [] => { w with rx := [], log := w.log ++ [WireOp.requestFrom address quantity] }
  | r :: rest =>
    { w with
      replies := rest
      rx := r.take quantity
      log := w.log ++ [WireOp.requestFrom address quantity] }

/-- Models `Wire.available()`: number of bytes waiting in the receive buffer. -/
def available (w : TwoWire) : Int :=
  w.rx.length

/-- Models `Wire.read()`: the next received byte as an `int`, or `-1` when the buffer is empty. -/
def read (w : TwoWire) : Int × TwoWire :=
  match w.rx with
  | [] => (-1, { w with log := w.log ++ [WireOp.read] })
  | b :: rest => ((b % 256 : Nat), { w with rx := rest, log := w.log ++ [WireOp.read] })

/-- Models `Wire.begin()` (`pins = none`) and `Wire.begin(sda, scl)`; the driver ignores the
result. -/
def begin (w : TwoWire) (pins : Option (Nat × Nat)) : TwoWire :=
  { w with log := w.log ++ [WireOp.begin pins] }

/-- Models `Wire.setClock(frequency)`. -/
def setClock (w : TwoWire) (frequency : Nat) : TwoWire :=
  { w with log := w.log ++ [WireOp.setClock frequency] }

end TwoWire

/-! ## Register map (`7Semi_ENS210.h`) -/

/-- Default 7-bit bus address of the sensor. -/
def ENS210_DEFAULT_ADDRESS : Nat := 0x43
def ENS210_REG_PART_ID : Nat := 0x00
def ENS210_REG_SYS_CTRL : Nat := 0x10
def ENS210_REG_SYS_STAT : Nat := 0x11
def ENS210_REG_SENS_RUN : Nat := 0x21
def ENS210_REG_SENS_START : Nat := 0x22
def ENS210_REG_T_VAL : Nat := 0x30
def ENS210_REG_H_VAL : Nat := 0x33

/-! ## The driver object -/

/-- The data members of `class ENS210_7Semi` that the protocol layer uses. `i2c` is the bus
pointer: `none` is the null pointer, `some w` points at the bus `w`. -/
structure ENS210_7Semi where
  address : Nat
  i2c : Option TwoWire
  part_id : Nat
deriving DecidableEq

/-- Outcome of `readRaw`: the returned `bool` and the two reference parameters after the call. -/
structure RawResult where
  ok : Bool
  temperature_raw : Nat
  humidity_raw : Nat
  self : ENS210_7Semi
deriving DecidableEq

/-- Outcome of `read`: the returned `bool` and the two reference parameters after the call. -/
structure ReadResult (F : Type) where
  ok : Bool
  temperatureC : F
  humidityPercent : F
  self : ENS210_7Semi

namespace ENS210_7Semi

/-- The `for` loop of `readReg`: `len` successive `i2c->read()` calls, each result stored in a
`uint8_t`. -/
def readReg.loop : Nat → TwoWire → List Nat × TwoWire
  | 0, w => ([], w)
  | n + 1, w =>
    let (b, w) := w.read
    let (rest, w) := readReg.loop n w
    ((b % 256).toNat :: rest, w)

/-- Member `bool readReg(uint8_t reg, uint8_t *data, uint8_t len)`. Returns the `bool`, the contents
of `data` after the call and the object. The null check of the bus pointer is commented out in
the source, so a null `i2c` is dereferenced: no defined result. -/
def readReg (self : ENS210_7Semi) (reg : Nat) (data : List Nat) (len : Nat) :
    Option (Bool × List Nat × ENS210_7Semi) :=
  match self.i2c with
  | none => none
  | some w =>
    let w := w.beginTransmission self.address
    let w := w.write reg
    let (st, w) := w.endTransmission false
    if st ≠ 0 then some (false, data, { self with i2c := some w })
    else
      let w := w.requestFrom self.address len
      if w.available ≠ (len : Int) then some (false, data, { self with i2c := some w })
      else
        let (bytes, w) := readReg.loop len w
        some (true, bytes ++ data.drop len, { self with i2c := some w })

/-- The `while` loop of `getCRC7`: polynomial long division, one bit position per iteration.
The loop runs while `bit` meets the mask `131071 << 7`; `bit` is halved each time. -/
def getCRC7.loop (val bit pol : Nat) : Nat :=
  if bit &&& (131071 <<< 7) ≠ 0 then
    getCRC7.loop (if val &&& bit ≠ 0 then val ^^^ pol else val) (bit >>> 1) (pol >>> 1)
  else val
termination_by bit
decreasing_by
  simp_wf
  rename_i h
  have hb : bit ≠ 0 := by
    rintro rfl
    simp at h
  rw [Nat.shiftRight_eq_div_pow]
  exact Nat.div_lt_self (Nat.pos_of_ne_zero hb) (by norm_num)

/-- Member `uint8_t getCRC7(uint32_t val)`: every intermediate value is a `uint32_t`. -/
def getCRC7 (val : Nat) : Nat :=
  let val := val % 2 ^ 32
  let pol := 137
  let pol := (pol <<< 9) % 2 ^ 32
  let bit := 65536
  let val := (val <<< 7) % 2 ^ 32
  let bit := (bit <<< 7) % 2 ^ 32
  let pol := (pol <<< 7) % 2 ^ 32
  let val := val ||| 127
  let val := getCRC7.loop val bit pol
  (val &&& 127) % 256

/-- Member `bool readRaw(uint32_t &temperature_raw, uint32_t &humidity_raw)`. The two arguments are
the values the referenced variables hold before the call. The debug dump of the six bytes on
the serial port is not modelled. -/
def readRaw (self : ENS210_7Semi) (temperature_raw humidity_raw : Nat) : Option RawResult :=
  match readReg self ENS210_REG_T_VAL (List.replicate 6 0) 6 with
  | none => none
  | some (false, _, self) => some ⟨false, temperature_raw, humidity_raw, self⟩
  | some (true, buf, self) =>
    let temperature :=
      ((((buf.getD 2 0 &&& 0x01) <<< 16) % 2 ^ 32) ||| ((buf.getD 1 0 <<< 8) % 2 ^ 32))
        ||| buf.getD 0 0
    let temp_crc := ((buf.getD 2 0 >>> 1) &&& 0x7F) % 256
    if temperature &&& 0x10000 = 0 then some ⟨false, temperature_raw, humidity_raw, self⟩
    else if getCRC7 temperature ≠ temp_crc then
      some ⟨false, temperature_raw, humidity_raw, self⟩
    else
      let temperature_raw := temperature &&& 0xFFFF
      let humidity :=
        ((((buf.getD 5 0 &&& 0x01) <<< 16) % 2 ^ 32) ||| ((buf.getD 4 0 <<< 8) % 2 ^ 32))
          ||| buf.getD 3 0
      let hum_crc := ((buf.getD 5 0 >>> 1) &&& 0x7F) % 256
      if humidity &&& 0x10000 = 0 then some ⟨false, temperature_raw, humidity_raw, self⟩
      else if getCRC7 humidity ≠ hum_crc then
        some ⟨false, temperature_raw, humidity_raw, self⟩
      else
        let humidity_raw := humidity &&& 0xFFFF
        some ⟨true, temperature_raw, humidity_raw, self⟩

/-- Member `bool read(float &temperatureC, float &humidityPercent)`. The two arguments are the values
the referenced variables hold before the call. The locals `temperature_raw` and `humidity_raw`
are uninitialised in the source; they start at 0 here. -/
def read {F : Type} [DivisionRing F] (self : ENS210_7Semi) (temperatureC humidityPercent : F) :
    Option (ReadResult F) :=
  match readRaw self 0 0 with
  | none => none
  | some ⟨false, _, _, self⟩ => some ⟨false, temperatureC, humidityPercent, self⟩
  | some ⟨true, temperature_raw, humidity_raw, self⟩ =>
    let temperatureK : F := ((temperature_raw &&& 0xFFFF : Nat) : F) / 64.0
    let humidity : F := ((humidity_raw &&& 0xFFFF : Nat) : F) / 512.0
    let temperatureC := temperatureK - 273.15
    let humidityPercent := humidity
    some ⟨true, temperatureC, humidityPercent, self⟩

/-- Member `float getAbsoluteHumidity()`. The result `none` is the `NAN` marker. `exp` is the C
library exponential, taken as a parameter. The locals `temperature` and `humidity` are
uninitialised in the source; they start at 0 here. -/
def getAbsoluteHumidity {F : Type} [DivisionRing F] (exp : F → F) (self : ENS210_7Semi) :
    Option (Option F × ENS210_7Semi) :=
  match read self (0 : F) (0 : F) with
  | none => none
  | some ⟨false, _, _, self⟩ => some (none, self)
  | some ⟨true, temperature, humidity, self⟩ =>
    let es : F := 6.112 * exp ((17.67 * temperature) / (temperature + 243.5))
    some (some ((2.1674 * es * humidity) / (273.15 + temperature)), self)

/-- Member `bool writeReg(uint8_t reg, uint8_t value)`: a null bus pointer is reported as
failure. -/
def writeReg (self : ENS210_7Semi) (reg value : Nat) : Bool × ENS210_7Semi :=
  match self.i2c with
  | none => (false, self)
  | some w =>
    let w := w.beginTransmission self.address
    let w := w.write reg
    let w := w.write value
    let (st, w) := w.endTransmission true
    (decide (st = 0), { self with i2c := some w })

/-- Member `bool reset()`. The boot delay after the write is not modelled. -/
def reset (self : ENS210_7Semi) : Bool × ENS210_7Semi :=
  match writeReg self ENS210_REG_SYS_CTRL 0x80 with
  | (false, self) => (false, self)
  | (true, self) => (true, self)

/-- Member `bool startSingleShot()`. -/
def startSingleShot (self : ENS210_7Semi) : Bool × ENS210_7Semi :=
  writeReg self ENS210_REG_SENS_START 3

/-- Member `bool startContinuous()`. -/
def startContinuous (self : ENS210_7Semi) : Bool × ENS210_7Semi :=
  match writeReg self ENS210_REG_SENS_RUN 0x03 with
  | (false, self) => (false, self)
  | (true, self) =>
    match writeReg self ENS210_REG_SENS_START 0x03 with
    | (false, self) => (false, self)
    | (true, self) => (true, self)

/-- Member `bool stop()`. -/
def stop (self : ENS210_7Semi) : Bool × ENS210_7Semi :=
  writeReg self ENS210_REG_SENS_RUN 0

/-- Member `bool available()`. The local `status` is uninitialised in the source; it starts at
0 here. -/
def available (self : ENS210_7Semi) : Option (Bool × ENS210_7Semi) :=
  match readReg self ENS210_REG_SYS_STAT [0] 1 with
  | none => none
  | some (false, _, self) => some (false, self)
  | some (true, status, self) => some (decide (status.getD 0 0 &&& 0x01 ≠ 0), self)

/-- Member `bool readDeviceId(uint16_t &partID)`. The argument `partID` is the value the
referenced variable holds before the call; the result carries its value after the call. -/
def readDeviceId (self : ENS210_7Semi) (partID : Nat) : Option (Bool × Nat × ENS210_7Semi) :=
  match readReg self ENS210_REG_PART_ID (List.replicate 2 0) 2 with
  | none => none
  | some (false, _, self) => some (false, partID, self)
  | some (true, buf, self) =>
    some (true, ((buf.getD 1 0 <<< 8) ||| buf.getD 0 0) % 2 ^ 16, self)

/-- Member `bool begin(uint8_t i2cAddress, TwoWire &i2cPort, uint32_t i2cClock, uint8_t sda,
uint8_t scl)`. `arch_esp32` tells which branch of the `#if defined(ARDUINO_ARCH_ESP32)`
conditional is compiled; in the other branch the source line `(void)sda;a` carries a stray
`a`, and the branch is taken as the call `i2c->begin()` followed by the two casts. The two
delays are not modelled. -/
def begin (self : ENS210_7Semi) (arch_esp32 : Bool) (i2cAddress : Nat) (i2cPort : TwoWire)
    (i2cClock sda scl : Nat) : Option (Bool × ENS210_7Semi) :=
  let self := { self with i2c := some i2cPort, address := i2cAddress }
  let w :=
    if arch_esp32 then
      if sda ≠ 255 ∧ scl ≠ 255 then i2cPort.begin (some (sda, scl)) else i2cPort.begin none
    else i2cPort.begin none
  let w := w.setClock i2cClock
  let w := w.beginTransmission self.address
  let (st, w) := w.endTransmission true
  let self := { self with i2c := some w }
  if st ≠ 0 then some (false, self)
  else
    match readDeviceId self self.part_id with
    | none => none
    | some (false, _, self) => some (false, self)
    | some (true, partID, self) =>
      let self := { self with part_id := partID }
      match reset self with
      | (false, self) => some (false, self)
      | (true, self) =>
        match writeReg self ENS210_REG_SYS_CTRL 0x00 with
        | (false, self) => some (false, self)
        | (true, self) =>
          match writeReg self ENS210_REG_SENS_RUN 0x03 with
          | (false, self) => some (false, self)
          | (true, self) => some (true, self)

/-- The `while` loop of `getCRC7` with a record of its iterations: besides the final working
register it returns the value of `bit` tested in each iteration, in the order of execution. -/
def getCRC7.loopTrace (val bit pol : Nat) : Nat × List Nat :=
  if bit &&& (131071 <<< 7) ≠ 0 then
    let r := getCRC7.loopTrace (if val &&& bit ≠ 0 then val ^^^ pol else val) (bit >>> 1)
      (pol >>> 1)
    (r.1, bit :: r.2)
  else (val, [])
termination_by bit
decreasing_by
  simp_wf
  rename_i h
  have hb : bit ≠ 0 := by
    rintro rfl
    simp at h
  rw [Nat.shiftRight_eq_div_pow]
  exact Nat.div_lt_self (Nat.pos_of_ne_zero hb) (by norm_num)

/-- The iterations of the division loop in a call `getCRC7(val)`: the loop of `getCRC7` run
from the same initial `val`, `bit` and `pol`, returning the final working register and the
values of `bit` tested. -/
def getCRC7.iterations (val : Nat) : Nat × List Nat :=
  let val := val % 2 ^ 32
  let pol := 137
  let pol := (pol <<< 9) % 2 ^ 32
  let bit := 65536
  let val := (val <<< 7) % 2 ^ 32
  let bit := (bit <<< 7) % 2 ^ 32
  let pol := (pol <<< 7) % 2 ^ 32
  let val := val ||| 127
  getCRC7.loopTrace val bit pol

end ENS210_7Semi

/-! ## Reference definitions and test data

None of these is part of the driver: `crcSteps` unrolls the division loop for the proofs,
`gf2Mod` and `gf2Mul` are polynomial arithmetic over GF(2), and the rest describes register
images and scripted buses. -/

/-- The `n` last iterations of the division loop of `getCRC7`, written by structural
recursion: the iteration with `n + 1` steps to go tests bit `n + 7` of the working register and
cancels it with the generator shifted left by `n`. -/
def crcSteps : Nat → Nat → Nat
  | 0, val => val
  | n + 1, val => crcSteps n (if val &&& 2 ^ (n + 7) ≠ 0 then val ^^^ (137 <<< n) else val)

/-- Long division in GF(2)[x] on bit-encoded polynomials (bit `i` is the coefficient of
`x ^ i`): while the degree of `a` is at least the degree of `g`, add (xor) the multiple of `g`
that cancels the leading term of `a`. `fuel` bounds the number of cancellations. -/
def gf2ModAux (g : Nat) : Nat → Nat → Nat
  | 0, a => a
  | fuel + 1, a =>
    if a.log2 < g.log2 then a else gf2ModAux g fuel (a ^^^ (g <<< (a.log2 - g.log2)))

/-- Remainder of the polynomial `a` divided by the polynomial `g` over GF(2). Each cancellation
lowers the degree of `a`, so `a.log2 + 1` cancellations are enough. -/
def gf2Mod (a g : Nat) : Nat :=
  gf2ModAux g (a.log2 + 1) a

/-- Product of two bit-encoded polynomials over GF(2) (carry-less multiplication): the xor of
`g * x ^ i` over the set bits `i` of `q`. -/
def gf2Mul (q g : Nat) : Nat :=
  if q = 0 then 0 else (if q % 2 = 1 then g else 0) ^^^ 2 * gf2Mul (q / 2) g
termination_by q
decreasing_by omega

/-- The correctly constructed three-byte block for a 16-bit value `V`: low byte, high byte, and
a third byte holding the valid flag (bit 0, set) and the checksum `getCRC7 (V | 0x10000)` in
bits 1 to 7. -/
def encodeBlock (V : Nat) : List Nat :=
  [V &&& 0xFF, V >>> 8, 1 ||| (ENS210_7Semi.getCRC7 (V ||| 0x10000) <<< 1)]

/-- The block `encodeBlock V` with bit `k` of its third byte flipped. -/
def flipByte2 (V k : Nat) : List Nat :=
  [V &&& 0xFF, V >>> 8, (1 ||| (ENS210_7Semi.getCRC7 (V ||| 0x10000) <<< 1)) ^^^ (1 <<< k)]

/-- A driver object bound to a bus that acknowledges the next transaction and answers the next
read request with `image`. -/
def scripted (image : List Nat) : ENS210_7Semi :=
  { address := ENS210_DEFAULT_ADDRESS
    i2c := some { status := [0], replies := [image], rx := [], log := [] }
    part_id := 0 }

/-- The object `scripted image` after one six-byte register read at `T_VAL`. -/
def scriptedDone : ENS210_7Semi :=
  { address := ENS210_DEFAULT_ADDRESS
    i2c := some
      { status := []
        replies := []
        rx := []
        log := [WireOp.beginTransmission 0x43, WireOp.write 0x30, WireOp.endTransmission false,
          WireOp.requestFrom 0x43 6, WireOp.read, WireOp.read, WireOp.read, WireOp.read,
          WireOp.read, WireOp.read] }
    part_id := 0 }

/-- A three-byte block passes the two checks of the decoder: the valid flag (bit 0 of the third
byte) is set and the checksum field (bits 1 to 7 of the third byte) equals `getCRC7` of the
17-bit value rebuilt from the block. -/
def blockAccepted (b0 b1 b2 : Nat) : Prop :=
  b2 &&& 1 = 1 ∧ ENS210_7Semi.getCRC7 (((1 <<< 16) ||| (b1 <<< 8)) ||| b0) = b2 >>> 1

instance instDecidableBlockAccepted (b0 b1 b2 : Nat) : Decidable (blockAccepted b0 b1 b2) := by
  unfold blockAccepted
  infer_instance

/-- The magnus formula of `getAbsoluteHumidity` (the statements after the read), as a function
of the temperature in degrees Celsius and the relative humidity in percent. -/
def absoluteHumidityOf {F : Type} [DivisionRing F] (exp : F → F) (temperature humidity : F) : F :=
  let es : F := 6.112 * exp ((17.67 * temperature) / (temperature + 243.5))
  (2.1674 * es * humidity) / (273.15 + temperature)

/-- With the status script `status`, the coming `endTransmission` number `i` (counted from 0)
is acknowledged: its status code is 0. A call beyond the end of the script returns code 4. -/
def acked (status : List Nat) (i : Nat) : Prop :=
  status.getD i 4 % 256 = 0

instance instDecidableAcked (status : List Nat) (i : Nat) : Decidable (acked status i) := by
  unfold acked
  infer_instance

/-- The bus calls of one register write. -/
def writeOps (address reg value : Nat) : List WireOp :=
  [WireOp.beginTransmission address, WireOp.write reg, WireOp.write value,
    WireOp.endTransmission true]

/-- The bus calls that open a register read: the register address is sent without a stop. -/
def readAddressOps (address reg : Nat) : List WireOp :=
  [WireOp.beginTransmission address, WireOp.write reg, WireOp.endTransmission false]

/-- The 24 bits of the correctly constructed block for a 16-bit value `V`, as one number: bits 0
to 15 hold the value, bit 16 the valid flag, bits 17 to 23 the checksum
`getCRC7 (V | 0x10000)`. -/
def blockWord (V : Nat) : Nat :=
  (V ||| (1 <<< 16)) ||| (ENS210_7Semi.getCRC7 (V ||| 0x10000) <<< 17)

/-- The three register bytes that hold a 24-bit block, low byte first. -/
def wordBytes (W : Nat) : List Nat :=
  [W &&& 0xFF, (W >>> 8) &&& 0xFF, (W >>> 16) &&& 0xFF]

/-- A fresh bus whose device does not acknowledge the first transmission (status 2, address not
acknowledged) and acknowledges the second. -/
def probeNackBus : TwoWire :=
  { status := [2, 0], replies := [], rx := [], log := [] }

/-- The driver object after `begin` at the default address and clock on `probeNackBus`. -/
def afterFailedBegin : ENS210_7Semi :=
  { address := ENS210_DEFAULT_ADDRESS
    i2c := some
      { status := [0]
        replies := []
        rx := []
        log := [WireOp.begin none, WireOp.setClock 400000, WireOp.beginTransmission 0x43,
          WireOp.endTransmission true] }
    part_id := 0 }

/-- A driver object bound at the default address to a bus with the given scripts and an empty
log. -/
def onBus (status : List Nat) (replies : List (List Nat)) : ENS210_7Semi :=
  { address := ENS210_DEFAULT_ADDRESS
    i2c := some { status := status, replies := replies, rx := [], log := [] }
    part_id := 0 }

/-! # Proofs -/

open ENS210_7Semi

theorem loop_done (val : Nat) : getCRC7.loop val 64 68 = val := by
  rw [getCRC7.loop, if_neg]
  decide

theorem loop_step (n : Nat) (hn : n ≤ 16) (val : Nat) :
    getCRC7.loop val (2 ^ (n + 7)) (137 <<< n) =
      getCRC7.loop (if val &&& 2 ^ (n + 7) ≠ 0 then val ^^^ (137 <<< n) else val)
        (2 ^ (n + 6)) ((137 <<< n) >>> 1) := by
  have h1 : 2 ^ (n + 7) &&& (131071 <<< 7) ≠ 0 := by
    interval_cases n <;> decide
  have h2 : 2 ^ (n + 7) >>> 1 = 2 ^ (n + 6) := by
    rw [Nat.shiftRight_eq_div_pow, pow_succ]; simp
  rw [getCRC7.loop, if_pos h1, h2]

theorem loop_eq_crcSteps (n : Nat) (hn : n ≤ 17) (val : Nat) :
    getCRC7.loop val (2 ^ (n + 6)) ((137 <<< n) >>> 1) = crcSteps n val := by
  induction n generalizing val with
  | zero => exact loop_done val
  | succ n ih =>
    have h3 : (137 <<< (n + 1)) >>> 1 = 137 <<< n := by
      rw [Nat.shiftRight_eq_div_pow, Nat.shiftLeft_eq, Nat.shiftLeft_eq, pow_succ, ← mul_assoc]
      simp
    rw [h3, show n + 1 + 6 = n + 7 from rfl, loop_step n (by omega), ih (by omega)]
    rfl

theorem getCRC7_eq_crcSteps (v : Nat) :
    getCRC7 v = (crcSteps 17 ((((v % 2 ^ 32) <<< 7) % 2 ^ 32) ||| 127) &&& 127) % 256 := by
  have h := loop_eq_crcSteps 17 (le_refl _) ((((v % 2 ^ 32) <<< 7) % 2 ^ 32) ||| 127)
  have hb : (65536 <<< 7) % 2 ^ 32 = 2 ^ (17 + 6) := by decide
  have hp : ((((137 : Nat) <<< 9) % 2 ^ 32) <<< 7) % 2 ^ 32 = (137 <<< 17) >>> 1 := by decide
  simp only [getCRC7]
  rw [hb, hp, h]

theorem getCRC7_lt (v : Nat) : getCRC7 v < 128 := by
  unfold getCRC7
  have : ∀ x : Nat, (x &&& 127) % 256 < 128 := by
    intro x
    have := @Nat.and_le_right x 127
    omega
  exact this _

example : getCRC7 0x14400 = 0x11 := by rw [getCRC7_eq_crcSteps]; decide

/-! ## Bit-level facts -/

theorem and_two_pow_ne_zero_iff (a k : Nat) : a &&& 2 ^ k ≠ 0 ↔ a.testBit k = true := by
  rw [Nat.and_two_pow]
  cases a.testBit k <;> simp

theorem log2_eq_of_bounds {a k : Nat} (h1 : 2 ^ k ≤ a) (h2 : a < 2 ^ (k + 1)) : a.log2 = k := by
  have ha : a ≠ 0 := by
    have := Nat.two_pow_pos k
    omega
  have h3 : k ≤ a.log2 := (Nat.le_log2 ha).2 h1
  have h4 : a.log2 < k + 1 := (Nat.log2_lt ha).2 h2
  omega

theorem lt_two_pow_of_testBit_false {a k : Nat} (h1 : a < 2 ^ (k + 1))
    (h2 : a.testBit k = false) : a < 2 ^ k := by
  apply Nat.lt_pow_two_of_testBit
  intro i hi
  rcases Nat.eq_or_lt_of_le hi with h | h
  · rw [← h]; exact h2
  · exact Nat.testBit_lt_two_pow (lt_of_lt_of_le h1 (Nat.pow_le_pow_right (by decide) h))

theorem cancel_top_lt {a n : Nat} (h1 : a < 2 ^ (n + 8)) (h2 : a.testBit (n + 7) = true) :
    a ^^^ (137 <<< n) < 2 ^ (n + 7) := by
  apply Nat.lt_pow_two_of_testBit
  intro i hi
  rw [Nat.testBit_xor, Nat.testBit_shiftLeft]
  rcases Nat.eq_or_lt_of_le hi with h | h
  · subst h
    have : n + 7 - n = 7 := by omega
    rw [h2, this]
    have : decide (n + 7 ≥ n) = true := by simp
    rw [this]
    decide
  · have ha : a.testBit i = false :=
      Nat.testBit_lt_two_pow (lt_of_lt_of_le h1 (Nat.pow_le_pow_right (by decide) h))
    have hg : Nat.testBit 137 (i - n) = false :=
      Nat.testBit_lt_two_pow
        (lt_of_lt_of_le (by decide : 137 < 2 ^ 8) (Nat.pow_le_pow_right (by decide) (by omega)))
    rw [ha, hg]
    simp

theorem crcSteps_lt (n a : Nat) (h : a < 2 ^ (n + 7)) : crcSteps n a < 2 ^ 7 := by
  induction n generalizing a with
  | zero => simpa [crcSteps] using h
  | succ n ih =>
    rw [crcSteps]
    apply ih
    split
    · rename_i hb
      exact cancel_top_lt h ((and_two_pow_ne_zero_iff _ _).1 hb)
    · rename_i hb
      apply lt_two_pow_of_testBit_false h
      rw [and_two_pow_ne_zero_iff] at hb
      simpa using hb

theorem gf2ModAux_eq_crcSteps (n a fuel : Nat) (h : a < 2 ^ (n + 7)) (hf : n ≤ fuel) :
    gf2ModAux 137 fuel a = crcSteps n a := by
  have hg : Nat.log2 137 = 7 := log2_eq_of_bounds (by decide) (by decide)
  induction n generalizing a fuel with
  | zero =>
    have hlt : a.log2 < 7 := by
      by_cases ha : a = 0
      · subst ha; rw [Nat.log2]; decide
      · exact (Nat.log2_lt ha).2 (by simpa using h)
    cases fuel with
    | zero => rfl
    | succ f => rw [gf2ModAux, hg, if_pos hlt]; rfl
  | succ n ih =>
    rw [crcSteps]
    by_cases hb : a.testBit (n + 7) = true
    · obtain ⟨f, rfl⟩ : ∃ f, fuel = f + 1 := ⟨fuel - 1, by omega⟩
      have hl : a.log2 = n + 7 := log2_eq_of_bounds (Nat.testBit_implies_ge hb) h
      rw [gf2ModAux, hg, hl, if_neg (by omega), if_pos ((and_two_pow_ne_zero_iff _ _).2 hb)]
      have : n + 7 - 7 = n := by omega
      rw [this]
      exact ih _ _ (cancel_top_lt h hb) (by omega)
    · rw [if_neg (by rwa [and_two_pow_ne_zero_iff])]
      exact ih _ _ (lt_two_pow_of_testBit_false h (by simpa using hb)) (by omega)

theorem crcSteps_skip (m n a : Nat) (h : a < 2 ^ (n + 7)) (hnm : n ≤ m) :
    crcSteps m a = crcSteps n a := by
  induction m with
  | zero =>
    have : n = 0 := by omega
    rw [this]
  | succ m ih =>
    rcases Nat.eq_or_lt_of_le hnm with h1 | h1
    · rw [h1]
    · have hlt : a < 2 ^ (m + 7) :=
        lt_of_lt_of_le h (Nat.pow_le_pow_right (by decide) (by omega))
      have hb : ¬ (a &&& 2 ^ (m + 7) ≠ 0) := by
        rw [and_two_pow_ne_zero_iff, Nat.testBit_lt_two_pow hlt]
        simp
      rw [crcSteps, if_neg hb]
      exact ih (by omega)

/-- For a 17-bit payload the 32-bit shift in `getCRC7` does not wrap, and the result is what the
17 unrolled division steps leave of the 24-bit working register. -/
theorem getCRC7_of_lt (v : Nat) (hv : v < 2 ^ 17) :
    getCRC7 v = crcSteps 17 ((v <<< 7) ||| 127) := by
  have h1 : v % 2 ^ 32 = v := Nat.mod_eq_of_lt (by omega)
  have h2 : (v <<< 7) % 2 ^ 32 = v <<< 7 := by
    rw [Nat.shiftLeft_eq]
    exact Nat.mod_eq_of_lt (by omega)
  have h3 : (v <<< 7) ||| 127 < 2 ^ (17 + 7) := by
    apply Nat.or_lt_two_pow
    · rw [Nat.shiftLeft_eq]; omega
    · decide
  have h4 := crcSteps_lt 17 _ h3
  rw [getCRC7_eq_crcSteps, h1, h2]
  have h5 : crcSteps 17 ((v <<< 7) ||| 127) &&& 127 = crcSteps 17 ((v <<< 7) ||| 127) :=
    Nat.and_pow_two_sub_one_of_lt_two_pow (n := 7) h4
  rw [h5]
  exact Nat.mod_eq_of_lt (by omega)

theorem gf2Mod_eq_crcSteps (a : Nat) (h0 : 127 ≤ a) (h1 : a < 2 ^ 24) :
    gf2Mod a 137 = crcSteps 17 a := by
  have ha : a ≠ 0 := by omega
  have h6 : 6 ≤ a.log2 := (Nat.le_log2 ha).2 (by omega)
  have h23 : a.log2 < 24 := (Nat.log2_lt ha).2 h1
  have hlt : a < 2 ^ (a.log2 - 6 + 7) := by
    have : a.log2 - 6 + 7 = a.log2 + 1 := by omega
    rw [this]
    exact Nat.lt_log2_self
  rw [gf2Mod, gf2ModAux_eq_crcSteps (a.log2 - 6) a _ hlt (by omega)]
  exact (crcSteps_skip 17 _ a hlt (by omega)).symm

theorem shl7_or_127 (v : Nat) : (v <<< 7) ||| 127 = 128 * v + 127 := by
  rw [Nat.shiftLeft_eq, Nat.mul_comm]
  exact (Nat.mul_add_lt_is_or (i := 7) (by decide : 127 < 2 ^ 7) v).symm

example (v : Nat) (hv : v < 2 ^ 17) :
    getCRC7 v = gf2Mod ((v <<< 7) ||| 127) 137 ∧ getCRC7 v < 128 := by
  refine ⟨?_, getCRC7_lt v⟩
  rw [getCRC7_of_lt v hv, gf2Mod_eq_crcSteps] <;> rw [shl7_or_127] <;> omega

/-! ## The quotient of the division -/

theorem two_mul_xor (x y : Nat) : 2 * (x ^^^ y) = 2 * x ^^^ 2 * y := by
  have e : ∀ z : Nat, 2 * z = z <<< 1 := by
    intro z
    rw [Nat.shiftLeft_eq]
    omega
  rw [e, e, e]
  apply Nat.eq_of_testBit_eq
  intro i
  simp only [Nat.testBit_shiftLeft, Nat.testBit_xor]
  cases decide (i ≥ 1) <;> simp

theorem gf2Mul_zero (g : Nat) : gf2Mul 0 g = 0 := by
  rw [gf2Mul, if_pos rfl]

theorem gf2Mul_add_two_pow (g n : Nat) : ∀ q, q < 2 ^ n →
    gf2Mul (q + 2 ^ n) g = gf2Mul q g ^^^ (g <<< n) := by
  induction n with
  | zero =>
    intro q hq
    have hq0 : q = 0 := by simpa using hq
    subst hq0
    rw [gf2Mul, if_neg (by decide), gf2Mul_zero]
    simp [gf2Mul_zero]
  | succ n ih =>
    intro q hq
    have hp : 2 ^ (n + 1) = 2 * 2 ^ n := by rw [pow_succ]; omega
    have hpos := Nat.two_pow_pos n
    have h1 : (q + 2 ^ (n + 1)) % 2 = q % 2 := by omega
    have h2 : (q + 2 ^ (n + 1)) / 2 = q / 2 + 2 ^ n := by omega
    have h3 : g <<< (n + 1) = 2 * (g <<< n) := by
      rw [Nat.shiftLeft_eq, Nat.shiftLeft_eq, pow_succ]
      ring
    rw [gf2Mul, if_neg (by omega), h1, h2, ih (q / 2) (by omega), two_mul_xor, h3]
    by_cases hq0 : q = 0
    · subst hq0
      simp [gf2Mul_zero]
    · rw [gf2Mul.eq_1 q, if_neg hq0, Nat.xor_assoc]

theorem crcSteps_quotient (n : Nat) : ∀ a, a < 2 ^ (n + 7) →
    ∃ q, q < 2 ^ n ∧ a = gf2Mul q 137 ^^^ crcSteps n a := by
  induction n with
  | zero =>
    intro a _
    exact ⟨0, by decide, by simp [gf2Mul_zero, crcSteps]⟩
  | succ n ih =>
    intro a h
    have hp : 2 ^ (n + 1) = 2 * 2 ^ n := by rw [pow_succ]; omega
    rw [crcSteps]
    by_cases hb : a.testBit (n + 7) = true
    · rw [if_pos ((and_two_pow_ne_zero_iff _ _).2 hb)]
      obtain ⟨q, hq, e⟩ := ih _ (cancel_top_lt h hb)
      refine ⟨q + 2 ^ n, by omega, ?_⟩
      rw [gf2Mul_add_two_pow 137 n q hq, Nat.xor_assoc,
        Nat.xor_comm (137 <<< n), ← Nat.xor_assoc, ← e, Nat.xor_assoc, Nat.xor_self,
        Nat.xor_zero]
    · rw [if_neg (by rwa [and_two_pow_ne_zero_iff])]
      obtain ⟨q, hq, e⟩ := ih _ (lt_two_pow_of_testBit_false h (by simpa using hb))
      exact ⟨q, by omega, e⟩

/-! ## The register read -/

theorem readReg_loop_spec (n : Nat) (w : TwoWire) :
    (readReg.loop n w).1.length = n ∧ ∀ b ∈ (readReg.loop n w).1, b < 256 := by
  induction n generalizing w with
  | zero => simp [readReg.loop]
  | succ n ih =>
    obtain ⟨h1, h2⟩ := ih (w.read).2
    simp only [readReg.loop, List.length_cons, h1, List.mem_cons, forall_eq_or_imp, true_and]
    refine ⟨?_, h2⟩
    have h3 : 0 ≤ (w.read).1 % 256 := Int.emod_nonneg _ (by decide)
    have h4 : (w.read).1 % 256 < 256 := Int.emod_lt_of_pos _ (by decide)
    omega

/-- A successful six-byte `readReg` returns exactly six bytes, each below 256. -/
theorem readReg_image {self self1 : ENS210_7Semi} {reg : Nat} {buf : List Nat}
    (h : readReg self reg (List.replicate 6 0) 6 = some (true, buf, self1)) :
    ∃ b0 b1 b2 b3 b4 b5, buf = [b0, b1, b2, b3, b4, b5] ∧
      b0 < 256 ∧ b1 < 256 ∧ b2 < 256 ∧ b3 < 256 ∧ b4 < 256 ∧ b5 < 256 := by
  unfold readReg at h
  cases hi : self.i2c with
  | none => rw [hi] at h; exact absurd h (by simp)
  | some w =>
    rw [hi] at h
    simp only at h
    split at h
    · simp at h
    · split at h
      · simp at h
      · simp only [Option.some.injEq, Prod.mk.injEq, true_and] at h
        obtain ⟨hb, -⟩ := h
        obtain ⟨hl, hlt⟩ := readReg_loop_spec 6
          ((((w.beginTransmission self.address).write reg).endTransmission false).2.requestFrom
            self.address 6)
        have hd : List.drop 6 (List.replicate 6 0) = ([] : List Nat) := by decide
        rw [hd, List.append_nil] at hb
        rw [hb] at hl hlt
        match buf, hl, hlt with
        | [b0, b1, b2, b3, b4, b5], _, hlt =>
          exact ⟨b0, b1, b2, b3, b4, b5, rfl, by simpa using hlt⟩

/-! ## Decoding one three-byte block -/

/-- The 17-bit word that `readRaw` rebuilds from a three-byte block, as plain arithmetic. -/
theorem word_eq {b0 b1 : Nat} (b2 : Nat) (h0 : b0 < 256) (h1 : b1 < 256) :
    ((((b2 &&& 0x01) <<< 16) % 2 ^ 32) ||| ((b1 <<< 8) % 2 ^ 32)) ||| b0 =
      (b2 % 2) * 65536 + b1 * 256 + b0 := by
  have hm : b2 % 2 < 2 := Nat.mod_lt _ (by decide)
  rw [Nat.and_one_is_mod, Nat.shiftLeft_eq, Nat.shiftLeft_eq,
    Nat.mod_eq_of_lt (by omega : b2 % 2 * 2 ^ 16 < 2 ^ 32),
    Nat.mod_eq_of_lt (by omega : b1 * 2 ^ 8 < 2 ^ 32)]
  have e1 : b2 % 2 * 2 ^ 16 ||| b1 * 2 ^ 8 = 2 ^ 8 * (b2 % 2 * 256 + b1) := by
    have := Nat.mul_add_lt_is_or (i := 16) (b := b1 * 2 ^ 8) (by omega) (b2 % 2)
    rw [Nat.mul_comm (b2 % 2) (2 ^ 16), ← this]
    omega
  rw [e1, ← Nat.mul_add_lt_is_or (i := 8) (by omega : b0 < 2 ^ 8)]
  omega

theorem crcField_eq {b2 : Nat} (h2 : b2 < 256) : ((b2 >>> 1) &&& 0x7F) % 256 = b2 / 2 := by
  have e : (b2 >>> 1) &&& 0x7F = (b2 >>> 1) % 2 ^ 7 := Nat.and_pow_two_sub_one_eq_mod _ 7
  rw [e, Nat.shiftRight_eq_div_pow]
  omega

theorem and_0x10000_eq_zero_iff {x : Nat} : x &&& 0x10000 = 0 ↔ x / 65536 % 2 = 0 := by
  have e : x &&& 0x10000 = x &&& 2 ^ 16 := rfl
  rw [e, Nat.and_two_pow, Nat.testBit_to_div_mod]
  by_cases h : x / 2 ^ 16 % 2 = 1
  · simp [h]
  · simp [h]

theorem and_0xFFFF_eq (x : Nat) : x &&& 0xFFFF = x % 65536 :=
  Nat.and_pow_two_sub_one_eq_mod x 16

/-- Normal form of `readRaw` after a successful six-byte register read. -/
theorem readRaw_of_image {self self1 : ENS210_7Semi} {b0 b1 b2 b3 b4 b5 : Nat}
    (h : readReg self ENS210_REG_T_VAL (List.replicate 6 0) 6 =
      some (true, [b0, b1, b2, b3, b4, b5], self1))
    (h0 : b0 < 256) (h1 : b1 < 256) (h2 : b2 < 256) (h3 : b3 < 256) (h4 : b4 < 256)
    (h5 : b5 < 256) (t0 u0 : Nat) :
    readRaw self t0 u0 =
      if b2 % 2 = 0 ∨ getCRC7 (65536 + b1 * 256 + b0) ≠ b2 / 2 then
        some ⟨false, t0, u0, self1⟩
      else if b5 % 2 = 0 ∨ getCRC7 (65536 + b4 * 256 + b3) ≠ b5 / 2 then
        some ⟨false, b1 * 256 + b0, u0, self1⟩
      else some ⟨true, b1 * 256 + b0, b4 * 256 + b3, self1⟩ := by
  have hm2 : b2 % 2 < 2 := Nat.mod_lt _ (by decide)
  have hm5 : b5 % 2 < 2 := Nat.mod_lt _ (by decide)
  simp only [readRaw, h, List.getD_cons_zero, List.getD_cons_succ, word_eq b2 h0 h1,
    word_eq b5 h3 h4, crcField_eq h2, crcField_eq h5, and_0x10000_eq_zero_iff, and_0xFFFF_eq]
  have a2 : (b2 % 2 * 65536 + b1 * 256 + b0) / 65536 % 2 = 0 ↔ b2 % 2 = 0 := by omega
  have a5 : (b5 % 2 * 65536 + b4 * 256 + b3) / 65536 % 2 = 0 ↔ b5 % 2 = 0 := by omega
  have r2 : (b2 % 2 * 65536 + b1 * 256 + b0) % 65536 = b1 * 256 + b0 := by omega
  have r5 : (b5 % 2 * 65536 + b4 * 256 + b3) % 65536 = b4 * 256 + b3 := by omega
  simp only [a2, a5, r2, r5]
  by_cases c2 : b2 % 2 = 0
  · simp [c2]
  · have e2 : b2 % 2 * 65536 + b1 * 256 + b0 = 65536 + b1 * 256 + b0 := by omega
    simp only [e2]
    by_cases d2 : getCRC7 (65536 + b1 * 256 + b0) = b2 / 2
    · by_cases c5 : b5 % 2 = 0
      · simp [c2, d2, c5]
      · have e5 : b5 % 2 * 65536 + b4 * 256 + b3 = 65536 + b4 * 256 + b3 := by omega
        simp only [e5]
        by_cases d5 : getCRC7 (65536 + b4 * 256 + b3) = b5 / 2
        · simp [c2, d2, c5, d5]
        · simp [c2, d2, c5, d5]
    · simp [c2, d2]

/-! ## Scripted register images -/

theorem readReg_scripted {b0 b1 b2 b3 b4 b5 : Nat} (h0 : b0 < 256) (h1 : b1 < 256)
    (h2 : b2 < 256) (h3 : b3 < 256) (h4 : b4 < 256) (h5 : b5 < 256) :
    readReg (scripted [b0, b1, b2, b3, b4, b5]) ENS210_REG_T_VAL (List.replicate 6 0) 6 =
      some (true, [b0, b1, b2, b3, b4, b5], scriptedDone) := by
  simp [readReg, scripted, scriptedDone, readReg.loop, TwoWire.beginTransmission, TwoWire.write,
    TwoWire.endTransmission, TwoWire.requestFrom, TwoWire.available, TwoWire.read,
    ENS210_DEFAULT_ADDRESS, ENS210_REG_T_VAL, Nat.mod_eq_of_lt, h0, h1, h2, h3, h4, h5]
  omega

theorem encodeBlock_eq (V : Nat) (hV : V < 65536) :
    encodeBlock V = [V % 256, V / 256, 2 * getCRC7 (65536 + V) + 1] := by
  have e1 : V &&& 0xFF = V % 256 := Nat.and_pow_two_sub_one_eq_mod V 8
  have e2 : V >>> 8 = V / 256 := Nat.shiftRight_eq_div_pow V 8
  have e3 : V ||| 0x10000 = 65536 + V := by
    have h : 65536 * 1 + V = 65536 * 1 ||| V :=
      Nat.mul_add_lt_is_or (i := 16) (b := V) (by omega) 1
    rw [Nat.mul_one] at h
    rw [Nat.lor_comm, ← h]
  have e4 : ∀ c : Nat, 1 ||| (c <<< 1) = 2 * c + 1 := by
    intro c
    have h : 2 * c + 1 = 2 * c ||| 1 := Nat.mul_add_lt_is_or (i := 1) (b := 1) (by decide) c
    rw [Nat.lor_comm, Nat.shiftLeft_eq, Nat.pow_one, Nat.mul_comm, ← h]
  rw [encodeBlock, e1, e2, e3, e4]

theorem flip_checksum_bit :
    ∀ c < 128, ∀ k < 8, 1 ≤ k →
      ((2 * c + 1) ^^^ (1 <<< k)) % 2 = 1 ∧ ((2 * c + 1) ^^^ (1 <<< k)) / 2 ≠ c ∧
        ((2 * c + 1) ^^^ (1 <<< k)) < 256 := by
  decide

theorem flipByte2_eq (V k : Nat) (hV : V < 65536) :
    flipByte2 V k = [V % 256, V / 256, (2 * getCRC7 (65536 + V) + 1) ^^^ (1 <<< k)] := by
  have h := encodeBlock_eq V hV
  simp only [encodeBlock, List.cons.injEq, and_true] at h
  obtain ⟨e1, e2, e3⟩ := h
  rw [flipByte2, e1, e2, e3]

/-! ## How `readRaw` depends on the register read -/

theorem readRaw_of_readReg_none {self : ENS210_7Semi}
    (h : readReg self ENS210_REG_T_VAL (List.replicate 6 0) 6 = none) (t0 u0 : Nat) :
    readRaw self t0 u0 = none := by
  simp only [readRaw, h]

theorem readRaw_of_readReg_false {self self1 : ENS210_7Semi} {buf : List Nat}
    (h : readReg self ENS210_REG_T_VAL (List.replicate 6 0) 6 = some (false, buf, self1))
    (t0 u0 : Nat) : readRaw self t0 u0 = some ⟨false, t0, u0, self1⟩ := by
  simp only [readRaw, h]

/-- The returned flag and the object after `readRaw` do not depend on what the two output
variables held before the call, and neither do the outputs of a successful call. -/
theorem readRaw_initial_values {self : ENS210_7Semi} {t0 u0 : Nat} {r : RawResult}
    (h : readRaw self t0 u0 = some r) (t1 u1 : Nat) :
    ∃ r1, readRaw self t1 u1 = some r1 ∧ r1.ok = r.ok ∧ r1.self = r.self ∧
      (r.ok = true → r1 = r) := by
  cases hreg : readReg self ENS210_REG_T_VAL (List.replicate 6 0) 6 with
  | none => rw [readRaw_of_readReg_none hreg] at h; exact absurd h (by simp)
  | some res =>
    obtain ⟨ok, buf, self1⟩ := res
    cases ok with
    | false =>
      rw [readRaw_of_readReg_false hreg] at h
      rw [readRaw_of_readReg_false hreg]
      cases h
      exact ⟨_, rfl, rfl, rfl, by simp⟩
    | true =>
      obtain ⟨b0, b1, b2, b3, b4, b5, rfl, h0, h1, h2, h3, h4, h5⟩ := readReg_image hreg
      rw [readRaw_of_image hreg h0 h1 h2 h3 h4 h5] at h
      rw [readRaw_of_image hreg h0 h1 h2 h3 h4 h5]
      split at h
      · rw [if_pos (by assumption)]
        cases h
        exact ⟨_, rfl, rfl, rfl, by simp⟩
      · rw [if_neg (by assumption)]
        split at h
        · rw [if_pos (by assumption)]
          cases h
          exact ⟨_, rfl, rfl, rfl, by simp⟩
        · rw [if_neg (by assumption)]
          cases h
          exact ⟨_, rfl, rfl, rfl, fun _ => rfl⟩

theorem read_of_readRaw_false {F : Type} [DivisionRing F] {self : ENS210_7Semi} {r : RawResult}
    (h : readRaw self 0 0 = some r) (hf : r.ok = false) (tC hP : F) :
    read self tC hP = some ⟨false, tC, hP, r.self⟩ := by
  obtain ⟨ok, t, u, s⟩ := r
  simp only at hf
  subst hf
  simp only [ENS210_7Semi.read, h]

theorem read_of_readRaw_true {F : Type} [DivisionRing F] {self self1 : ENS210_7Semi}
    {t u : Nat} (h : readRaw self 0 0 = some ⟨true, t, u, self1⟩) (tC hP : F) :
    read self tC hP =
      some ⟨true, ((t &&& 0xFFFF : Nat) : F) / 64.0 - 273.15, ((u &&& 0xFFFF : Nat) : F) / 512.0,
        self1⟩ := by
  simp only [ENS210_7Semi.read, h]

theorem blockAccepted_iff {b0 b1 : Nat} (b2 : Nat) (h0 : b0 < 256) (h1 : b1 < 256) :
    blockAccepted b0 b1 b2 ↔ ¬ (b2 % 2 = 0 ∨ getCRC7 (65536 + b1 * 256 + b0) ≠ b2 / 2) := by
  have e : ((1 <<< 16) ||| (b1 <<< 8)) ||| b0 = 65536 + b1 * 256 + b0 := by
    have h := word_eq 1 h0 h1
    have e1 : ((1 &&& 0x01) <<< 16) % 2 ^ 32 = 1 <<< 16 := by decide
    have e2 : (b1 <<< 8) % 2 ^ 32 = b1 <<< 8 := by
      rw [Nat.shiftLeft_eq]
      exact Nat.mod_eq_of_lt (by omega)
    rw [e1, e2] at h
    rw [h]
  rw [blockAccepted, e, Nat.and_one_is_mod, Nat.shiftRight_eq_div_pow]
  constructor
  · rintro ⟨h2, h3⟩
    rw [h3]
    omega
  · intro h
    constructor
    · omega
    · by_contra hc
      exact h (Or.inr hc)

/-! ## Checksums of the fixture values -/

theorem getCRC7_0x14400 : getCRC7 82944 = 17 := by
  rw [getCRC7_eq_crcSteps]; decide

theorem getCRC7_0x16400 : getCRC7 91136 = 99 := by
  rw [getCRC7_eq_crcSteps]; decide

theorem getCRC7_0x14480 : getCRC7 83072 = 80 := by
  rw [getCRC7_eq_crcSteps]; decide

theorem getCRC7_0x1FFFF : getCRC7 131071 = 53 := by
  rw [getCRC7_eq_crcSteps]; decide

theorem getCRC7_0x04400 : getCRC7 17408 = 62 := by
  rw [getCRC7_eq_crcSteps]; decide

theorem readRaw_scripted {b0 b1 b2 b3 b4 b5 : Nat} (h0 : b0 < 256) (h1 : b1 < 256)
    (h2 : b2 < 256) (h3 : b3 < 256) (h4 : b4 < 256) (h5 : b5 < 256) (t0 u0 : Nat) :
    readRaw (scripted [b0, b1, b2, b3, b4, b5]) t0 u0 =
      if b2 % 2 = 0 ∨ getCRC7 (65536 + b1 * 256 + b0) ≠ b2 / 2 then
        some ⟨false, t0, u0, scriptedDone⟩
      else if b5 % 2 = 0 ∨ getCRC7 (65536 + b4 * 256 + b3) ≠ b5 / 2 then
        some ⟨false, b1 * 256 + b0, u0, scriptedDone⟩
      else some ⟨true, b1 * 256 + b0, b4 * 256 + b3, scriptedDone⟩ :=
  readRaw_of_image (readReg_scripted h0 h1 h2 h3 h4 h5) h0 h1 h2 h3 h4 h5 t0 u0

/-- The image with both blocks correct, for temperature 0x4400 and humidity 0x6400. -/
theorem readRaw_good (t0 u0 : Nat) :
    readRaw (scripted [0x00, 0x44, 0x23, 0x00, 0x64, 0xC7]) t0 u0 =
      some ⟨true, 17408, 25600, scriptedDone⟩ := by
  rw [readRaw_scripted (by decide) (by decide) (by decide) (by decide) (by decide) (by decide)]
  norm_num [getCRC7_0x14400, getCRC7_0x16400]

/-- The same image with the humidity valid flag cleared. -/
theorem readRaw_humidity_invalid (t0 u0 : Nat) :
    readRaw (scripted [0x00, 0x44, 0x23, 0x00, 0x64, 0xC6]) t0 u0 =
      some ⟨false, 17408, u0, scriptedDone⟩ := by
  rw [readRaw_scripted (by decide) (by decide) (by decide) (by decide) (by decide) (by decide)]
  norm_num [getCRC7_0x14400, getCRC7_0x16400]

/-- The image as printed in the specification: the checksum fields 0x40 and 0x20 do not match. -/
theorem readRaw_spec_fixture (t0 u0 : Nat) :
    readRaw (scripted [0x00, 0x44, 0x81, 0x00, 0x64, 0x41]) t0 u0 =
      some ⟨false, t0, u0, scriptedDone⟩ := by
  rw [readRaw_scripted (by decide) (by decide) (by decide) (by decide) (by decide) (by decide)]
  norm_num [getCRC7_0x14400, getCRC7_0x16400]

/-- The image with both blocks correct, for temperature 17536 and humidity 0x6400. -/
theorem readRaw_17536 (t0 u0 : Nat) :
    readRaw (scripted [0x80, 0x44, 0xA1, 0x00, 0x64, 0xC7]) t0 u0 =
      some ⟨true, 17536, 25600, scriptedDone⟩ := by
  rw [readRaw_scripted (by decide) (by decide) (by decide) (by decide) (by decide) (by decide)]
  norm_num [getCRC7_0x14480, getCRC7_0x16400]

/-- The image with both blocks correct, for temperature 0x4400 and humidity 65535. -/
theorem readRaw_65535 (t0 u0 : Nat) :
    readRaw (scripted [0x00, 0x44, 0x23, 0xFF, 0xFF, 0x6B]) t0 u0 =
      some ⟨true, 17408, 65535, scriptedDone⟩ := by
  rw [readRaw_scripted (by decide) (by decide) (by decide) (by decide) (by decide) (by decide)]
  norm_num [getCRC7_0x14400, getCRC7_0x1FFFF]

theorem encodeBlock_17408 : encodeBlock 17408 = [0x00, 0x44, 0x23] := by
  rw [encodeBlock_eq 17408 (by decide), show 65536 + 17408 = 82944 from rfl, getCRC7_0x14400]

theorem encodeBlock_25600 : encodeBlock 25600 = [0x00, 0x64, 0xC7] := by
  rw [encodeBlock_eq 25600 (by decide), show 65536 + 25600 = 91136 from rfl, getCRC7_0x16400]

theorem flipByte2_17408_3 : flipByte2 17408 3 = [0x00, 0x44, 0x2B] := by
  rw [flipByte2_eq 17408 3 (by decide), show 65536 + 17408 = 82944 from rfl, getCRC7_0x14400]
  decide

/-- A failed `read` fails for every initial value of its two output variables, and leaves the
object in the same state. -/
theorem read_failure_initial_values {F : Type} [DivisionRing F] {self : ENS210_7Semi}
    {tC hP : F} {r : ReadResult F} (h : read self tC hP = some r) (hf : r.ok = false)
    (tC1 hP1 : F) : read self tC1 hP1 = some ⟨false, tC1, hP1, r.self⟩ := by
  cases hraw : readRaw self 0 0 with
  | none => simp [ENS210_7Semi.read, hraw] at h
  | some raw =>
    obtain ⟨ok, t, u, s⟩ := raw
    cases ok with
    | false =>
      rw [read_of_readRaw_false hraw rfl] at h
      cases h
      exact read_of_readRaw_false hraw rfl tC1 hP1
    | true =>
      rw [read_of_readRaw_true hraw] at h
      cases h
      simp at hf

/-! # The claims -/

/-- C1. Decoder round trip: when a successful six-byte register read returns the correctly
constructed blocks for the 16-bit values `Vt` and `Vh`, `readRaw` returns `true` with
`temperature_raw = Vt` and `humidity_raw = Vh`. -/
theorem readRaw_round_trip (self self1 : ENS210_7Semi) (Vt Vh t0 u0 : Nat)
    (ht : Vt < 65536) (hh : Vh < 65536)
    (h : readReg self ENS210_REG_T_VAL (List.replicate 6 0) 6 =
      some (true, encodeBlock Vt ++ encodeBlock Vh, self1)) :
    readRaw self t0 u0 = some ⟨true, Vt, Vh, self1⟩ := by
  rw [encodeBlock_eq Vt ht, encodeBlock_eq Vh hh] at h
  have ct := getCRC7_lt (65536 + Vt)
  have ch := getCRC7_lt (65536 + Vh)
  have ht1 : 65536 + Vt / 256 * 256 + Vt % 256 = 65536 + Vt := by omega
  have hh1 : 65536 + Vh / 256 * 256 + Vh % 256 = 65536 + Vh := by omega
  rw [readRaw_of_image h (by omega) (by omega) (by omega) (by omega) (by omega) (by omega),
    ht1, hh1, if_neg (by omega), if_neg (by omega)]
  congr 2 <;> omega

/-- C1, instance: a bus scripted with the blocks for 17408 and 25600 decodes to exactly these two
values. -/
theorem readRaw_round_trip_witness :
    (17408 < 65536 ∧ 25600 < 65536 ∧
      readReg (scripted [0x00, 0x44, 0x23, 0x00, 0x64, 0xC7]) ENS210_REG_T_VAL
        (List.replicate 6 0) 6 = some (true, encodeBlock 17408 ++ encodeBlock 25600, scriptedDone)) ∧
      readRaw (scripted [0x00, 0x44, 0x23, 0x00, 0x64, 0xC7]) 7 9 =
        some ⟨true, 17408, 25600, scriptedDone⟩ :=
  have h : readReg (scripted [0x00, 0x44, 0x23, 0x00, 0x64, 0xC7]) ENS210_REG_T_VAL
      (List.replicate 6 0) 6 = some (true, encodeBlock 17408 ++ encodeBlock 25600, scriptedDone) := by
    rw [encodeBlock_17408, encodeBlock_25600]
    decide
  ⟨⟨by decide, by decide, h⟩,
    readRaw_round_trip _ _ 17408 25600 7 9 (by decide) (by decide) h⟩

/-- C2. CRC7 reference definition: for every 17-bit input `v`, `getCRC7 v` is the remainder over
GF(2) of the 24-bit polynomial `(v << 7) | 127` divided by the generator 137: it equals the
result of polynomial long division, it is a 7-bit value, and the dividend is a multiple of the
generator plus that value. -/
theorem getCRC7_is_gf2_remainder (v : Nat) (hv : v < 2 ^ 17) :
    getCRC7 v = gf2Mod ((v <<< 7) ||| 127) 137 ∧ getCRC7 v < 128 ∧
      ∃ q, (v <<< 7) ||| 127 = gf2Mul q 137 ^^^ getCRC7 v := by
  have hlt : (v <<< 7) ||| 127 < 2 ^ (17 + 7) := by rw [shl7_or_127]; omega
  refine ⟨?_, getCRC7_lt v, ?_⟩
  · rw [getCRC7_of_lt v hv, gf2Mod_eq_crcSteps] <;> rw [shl7_or_127] <;> omega
  · obtain ⟨q, -, e⟩ := crcSteps_quotient 17 _ hlt
    exact ⟨q, by rw [getCRC7_of_lt v hv]; exact e⟩

/-- C2, instance: the payload 0x14400. -/
theorem getCRC7_is_gf2_remainder_witness :
    (0x14400 : Nat) < 2 ^ 17 ∧
      (getCRC7 0x14400 = gf2Mod ((0x14400 <<< 7) ||| 127) 137 ∧ getCRC7 0x14400 < 128 ∧
        ∃ q, (0x14400 <<< 7) ||| 127 = gf2Mul q 137 ^^^ getCRC7 0x14400) :=
  ⟨by decide, getCRC7_is_gf2_remainder 0x14400 (by decide)⟩

/-- C3. Valid bit 0 always fails: when bit 0 of byte 2 or bit 0 of byte 5 of the register image
is 0, `readRaw` returns `false`, whatever the other bits are. -/
theorem readRaw_valid_bit_clear (self self1 : ENS210_7Semi) (buf : List Nat) (t0 u0 : Nat)
    (h : readReg self ENS210_REG_T_VAL (List.replicate 6 0) 6 = some (true, buf, self1))
    (hv : buf.getD 2 0 &&& 1 = 0 ∨ buf.getD 5 0 &&& 1 = 0) :
    ∃ r, readRaw self t0 u0 = some r ∧ r.ok = false := by
  obtain ⟨b0, b1, b2, b3, b4, b5, rfl, h0, h1, h2, h3, h4, h5⟩ := readReg_image h
  simp only [List.getD_cons_zero, List.getD_cons_succ, Nat.and_one_is_mod] at hv
  rw [readRaw_of_image h h0 h1 h2 h3 h4 h5]
  split
  · exact ⟨_, rfl, rfl⟩
  · split
    · exact ⟨_, rfl, rfl⟩
    · rename_i hn2 hn5
      exact absurd hv (by tauto)

/-- C3, instance: the temperature block has valid bit 0 and a checksum field that matches the
rebuilt value 0x4400, and the read still fails. -/
theorem readRaw_valid_bit_clear_witness :
    (readReg (scripted [0x00, 0x44, 0x7C, 0x00, 0x64, 0xC7]) ENS210_REG_T_VAL
        (List.replicate 6 0) 6 = some (true, [0x00, 0x44, 0x7C, 0x00, 0x64, 0xC7], scriptedDone) ∧
      (([0x00, 0x44, 0x7C, 0x00, 0x64, 0xC7] : List Nat).getD 2 0 &&& 1 = 0 ∨
        ([0x00, 0x44, 0x7C, 0x00, 0x64, 0xC7] : List Nat).getD 5 0 &&& 1 = 0)) ∧
      getCRC7 0x4400 = 0x7C >>> 1 ∧
      ∃ r, readRaw (scripted [0x00, 0x44, 0x7C, 0x00, 0x64, 0xC7]) 7 9 = some r ∧ r.ok = false :=
  ⟨⟨by decide, by decide⟩, by rw [getCRC7_0x04400]; decide,
    readRaw_valid_bit_clear _ _ _ 7 9
      (by decide : readReg (scripted [0x00, 0x44, 0x7C, 0x00, 0x64, 0xC7]) ENS210_REG_T_VAL
        (List.replicate 6 0) 6 = some (true, [0x00, 0x44, 0x7C, 0x00, 0x64, 0xC7], scriptedDone))
      (by decide)⟩

/-- C4. A checksum altered by one bit always fails: flipping any one of the seven checksum bits
(bits 1 to 7 of the third byte) of the correctly constructed block for a 16-bit value `V` makes
`readRaw` return `false`, whether the block is the temperature sub-block (bytes 0 to 2) or the
humidity sub-block (bytes 3 to 5) of the image. -/
theorem readRaw_checksum_bit_flipped (self self1 : ENS210_7Semi) (V k : Nat)
    (image other : List Nat) (t0 u0 : Nat) (hV : V < 65536) (hk1 : 1 ≤ k) (hk7 : k ≤ 7)
    (h : readReg self ENS210_REG_T_VAL (List.replicate 6 0) 6 = some (true, image, self1))
    (himage : image = flipByte2 V k ++ other ∨ image = other ++ flipByte2 V k) :
    ∃ r, readRaw self t0 u0 = some r ∧ r.ok = false := by
  obtain ⟨f1, f2, -⟩ := flip_checksum_bit _ (getCRC7_lt (65536 + V)) k (by omega) hk1
  have hw : 65536 + V / 256 * 256 + V % 256 = 65536 + V := by omega
  rw [flipByte2_eq V k hV] at himage
  obtain ⟨b0, b1, b2, b3, b4, b5, hb, h0, h1, h2, h3, h4, h5⟩ := readReg_image h
  rw [hb] at h
  rw [readRaw_of_image h h0 h1 h2 h3 h4 h5]
  rcases himage with hi | hi
  · rw [hi] at hb
    simp only [List.cons_append, List.nil_append, List.cons.injEq] at hb
    obtain ⟨e0, e1, e2, -⟩ := hb
    rw [if_pos]
    · exact ⟨_, rfl, rfl⟩
    · right
      rw [← e0, ← e1, ← e2, hw]
      exact fun hc => f2 hc.symm
  · rw [hi] at hb
    have hlen : other.length = 3 := by
      have := congrArg List.length hb
      simp at this
      omega
    match other, hlen, hb with
    | [c0, c1, c2], _, hb =>
      simp only [List.cons_append, List.nil_append, List.cons.injEq] at hb
      obtain ⟨-, -, -, e3, e4, e5, -⟩ := hb
      split
      · exact ⟨_, rfl, rfl⟩
      · rw [if_pos]
        · exact ⟨_, rfl, rfl⟩
        · right
          rw [← e3, ← e4, ← e5, hw]
          exact fun hc => f2 hc.symm

/-- C4, instance: bit 3 of the third byte of the block for 17408 is flipped, the block sitting in
the humidity position after a correct temperature block. -/
theorem readRaw_checksum_bit_flipped_witness :
    (17408 < 65536 ∧ 1 ≤ 3 ∧ 3 ≤ 7 ∧
      readReg (scripted [0x00, 0x64, 0xC7, 0x00, 0x44, 0x2B]) ENS210_REG_T_VAL
        (List.replicate 6 0) 6 =
          some (true, [0x00, 0x64, 0xC7, 0x00, 0x44, 0x2B], scriptedDone) ∧
      ([0x00, 0x64, 0xC7, 0x00, 0x44, 0x2B] = flipByte2 17408 3 ++ [0x00, 0x64, 0xC7] ∨
        [0x00, 0x64, 0xC7, 0x00, 0x44, 0x2B] = [0x00, 0x64, 0xC7] ++ flipByte2 17408 3)) ∧
      ∃ r, readRaw (scripted [0x00, 0x64, 0xC7, 0x00, 0x44, 0x2B]) 7 9 = some r ∧
        r.ok = false :=
  have hi : [0x00, 0x64, 0xC7, 0x00, 0x44, 0x2B] = flipByte2 17408 3 ++ [0x00, 0x64, 0xC7] ∨
      [0x00, 0x64, 0xC7, 0x00, 0x44, 0x2B] = [0x00, 0x64, 0xC7] ++ flipByte2 17408 3 := by
    rw [flipByte2_17408_3]
    decide
  ⟨⟨by decide, by decide, by decide, by decide, hi⟩,
    readRaw_checksum_bit_flipped _ _ 17408 3 _ [0x00, 0x64, 0xC7] 7 9 (by decide) (by decide)
      (by decide)
      (by decide : readReg (scripted [0x00, 0x64, 0xC7, 0x00, 0x44, 0x2B]) ENS210_REG_T_VAL
        (List.replicate 6 0) 6 =
          some (true, [0x00, 0x64, 0xC7, 0x00, 0x44, 0x2B], scriptedDone))
      hi⟩

/-- C5. Unit conversion without clamping: when the raw read succeeds with values `t` and `u`
in 0..65535, `read` returns `true` with `temperatureC = t / 64 - 273.15` and
`humidityPercent = u / 512` in exact arithmetic; no clamping is applied: `u = 25600` gives
exactly 50 and `u = 65535` gives a value above 100. -/
theorem read_converts_without_clamping (self self1 : ENS210_7Semi) (t0 u0 t u : Nat)
    (tC hP : ℚ) (h : readRaw self t0 u0 = some ⟨true, t, u, self1⟩)
    (ht : t < 65536) (hu : u < 65536) :
    ∃ r : ReadResult ℚ, read self tC hP = some r ∧ r.ok = true ∧ r.self = self1 ∧
      r.temperatureC = (t : ℚ) / 64 - 273.15 ∧ r.humidityPercent = (u : ℚ) / 512 ∧
      (u = 25600 → r.humidityPercent = 50) ∧ (u = 65535 → 100 < r.humidityPercent) := by
  obtain ⟨r1, h1, -, -, h2⟩ := readRaw_initial_values h 0 0
  rw [h2 rfl] at h1
  have et : t &&& 0xFFFF = t := by rw [and_0xFFFF_eq]; omega
  have eu : u &&& 0xFFFF = u := by rw [and_0xFFFF_eq]; omega
  refine ⟨_, read_of_readRaw_true h1 tC hP, rfl, rfl, ?_, ?_, ?_, ?_⟩
  · simp only [et]; norm_num
  · simp only [eu]; norm_num
  · intro hu1; subst hu1; simp only [eu]; norm_num
  · intro hu1; subst hu1; simp only [eu]; norm_num

/-- C5, instance: a bus scripted with raw humidity 65535; the humidity output exceeds 100. -/
theorem read_converts_without_clamping_witness :
    (readRaw (scripted [0x00, 0x44, 0x23, 0xFF, 0xFF, 0x6B]) 7 9 =
        some ⟨true, 17408, 65535, scriptedDone⟩ ∧ 17408 < 65536 ∧ 65535 < 65536) ∧
      ∃ r : ReadResult ℚ,
        read (scripted [0x00, 0x44, 0x23, 0xFF, 0xFF, 0x6B]) (20 : ℚ) 40 = some r ∧
        r.ok = true ∧ r.self = scriptedDone ∧
        r.temperatureC = ((17408 : Nat) : ℚ) / 64 - 273.15 ∧
        r.humidityPercent = ((65535 : Nat) : ℚ) / 512 ∧
        (65535 = 25600 → r.humidityPercent = 50) ∧ (65535 = 65535 → 100 < r.humidityPercent) :=
  ⟨⟨readRaw_65535 7 9, by decide, by decide⟩,
    read_converts_without_clamping _ _ 7 9 17408 65535 20 40 (readRaw_65535 7 9) (by decide)
      (by decide)⟩

/-- C6. `read` returns no partial result: whenever the raw read fails (bus read failure, valid
bit 0 or checksum mismatch in either sub-block), `read` returns `false` and both
`temperatureC` and `humidityPercent` still hold the values they had before the call. -/
theorem read_failure_keeps_outputs {F : Type} [DivisionRing F] (self : ENS210_7Semi)
    (r : RawResult) (t0 u0 : Nat) (tC hP : F) (h : readRaw self t0 u0 = some r)
    (hf : r.ok = false) :
    read self tC hP = some ⟨false, tC, hP, r.self⟩ := by
  obtain ⟨r1, h1, h2, h3, -⟩ := readRaw_initial_values h 0 0
  rw [← h3]
  exact read_of_readRaw_false h1 (h2.trans hf) tC hP

/-- C6, instance: the temperature block is correct and the humidity block has valid bit 0; the
outputs keep their values 20 and 40. -/
theorem read_failure_keeps_outputs_witness :
    (readRaw (scripted [0x00, 0x44, 0x23, 0x00, 0x64, 0xC6]) 7 9 =
        some ⟨false, 17408, 9, scriptedDone⟩ ∧
      (⟨false, 17408, 9, scriptedDone⟩ : RawResult).ok = false) ∧
      read (scripted [0x00, 0x44, 0x23, 0x00, 0x64, 0xC6]) (20 : ℚ) 40 =
        some ⟨false, 20, 40, scriptedDone⟩ :=
  ⟨⟨readRaw_humidity_invalid 7 9, rfl⟩,
    read_failure_keeps_outputs _ _ 7 9 (20 : ℚ) 40 (readRaw_humidity_invalid 7 9) rfl⟩

/-- C7, as stated, fails: on an image whose temperature block is correct and whose humidity
block has valid bit 0, `readRaw` returns `false` but `temperature_raw` has changed from 7 to
the decoded value 17408. -/
theorem readRaw_failure_overwrites_temperature :
    readRaw (scripted [0x00, 0x44, 0x23, 0x00, 0x64, 0xC6]) 7 9 =
        some ⟨false, 17408, 9, scriptedDone⟩ ∧
      (⟨false, 17408, 9, scriptedDone⟩ : RawResult).temperature_raw ≠ 7 :=
  ⟨readRaw_humidity_invalid 7 9, by decide⟩

/-- C7, amended. A raw measurement is produced only after both CRC checks pass: `readRaw`
returns `true` only when the bus read succeeded and both sub-blocks have their valid bit set
and a correct checksum. Whenever `readRaw` returns `false`, `humidity_raw` has not been
modified, and `temperature_raw` has not been modified when the bus read failed or the
temperature sub-block was rejected. -/
theorem readRaw_failure_outputs (self : ENS210_7Semi) (t0 u0 : Nat) (r : RawResult)
    (h : readRaw self t0 u0 = some r) :
    (r.ok = true →
      ∃ b0 b1 b2 b3 b4 b5 self1,
        readReg self ENS210_REG_T_VAL (List.replicate 6 0) 6 =
          some (true, [b0, b1, b2, b3, b4, b5], self1) ∧
        blockAccepted b0 b1 b2 ∧ blockAccepted b3 b4 b5) ∧
    (r.ok = false →
      r.humidity_raw = u0 ∧
      (∀ buf self1, readReg self ENS210_REG_T_VAL (List.replicate 6 0) 6 =
          some (false, buf, self1) → r.temperature_raw = t0) ∧
      (∀ b0 b1 b2 b3 b4 b5 self1, readReg self ENS210_REG_T_VAL (List.replicate 6 0) 6 =
          some (true, [b0, b1, b2, b3, b4, b5], self1) →
        ¬ blockAccepted b0 b1 b2 → r.temperature_raw = t0)) := by
  cases hreg : readReg self ENS210_REG_T_VAL (List.replicate 6 0) 6 with
  | none => rw [readRaw_of_readReg_none hreg] at h; exact absurd h (by simp)
  | some res =>
    obtain ⟨ok, buf, self1⟩ := res
    cases ok with
    | false =>
      rw [readRaw_of_readReg_false hreg] at h
      cases h
      exact ⟨fun hc => by simp at hc,
        fun _ => ⟨rfl, fun _ _ _ => rfl, fun _ _ _ _ _ _ _ hc => by simp at hc⟩⟩
    | true =>
      obtain ⟨b0, b1, b2, b3, b4, b5, rfl, h0, h1, h2, h3, h4, h5⟩ := readReg_image hreg
      have i2 : (b2 % 2 = 0 ∨ getCRC7 (65536 + b1 * 256 + b0) ≠ b2 / 2) ↔
          ¬ blockAccepted b0 b1 b2 := by rw [blockAccepted_iff b2 h0 h1, not_not]
      have i5 : (b5 % 2 = 0 ∨ getCRC7 (65536 + b4 * 256 + b3) ≠ b5 / 2) ↔
          ¬ blockAccepted b3 b4 b5 := by rw [blockAccepted_iff b5 h3 h4, not_not]
      rw [readRaw_of_image hreg h0 h1 h2 h3 h4 h5] at h
      simp only [i2, i5] at h
      have key : ∀ c0 c1 c2 c3 c4 c5 s1,
          some (true, [b0, b1, b2, b3, b4, b5], self1) =
            some (true, [c0, c1, c2, c3, c4, c5], s1) →
          c0 = b0 ∧ c1 = b1 ∧ c2 = b2 := by
        intro c0 c1 c2 c3 c4 c5 s1 hc
        simp only [Option.some.injEq, Prod.mk.injEq, List.cons.injEq, true_and, and_true] at hc
        obtain ⟨⟨rfl, rfl, rfl, -⟩, -⟩ := hc
        exact ⟨rfl, rfl, rfl⟩
      split at h
      · rename_i hn
        cases h
        exact ⟨fun hc => by simp at hc,
          fun _ => ⟨rfl, fun _ _ hc => by simp at hc, fun _ _ _ _ _ _ _ _ _ => rfl⟩⟩
      · rename_i ha
        have ha1 : blockAccepted b0 b1 b2 := not_not.mp ha
        split at h
        · cases h
          refine ⟨fun hc => by simp at hc, fun _ => ⟨rfl, fun _ _ hc => by simp at hc, ?_⟩⟩
          intro c0 c1 c2 c3 c4 c5 s1 hc hna
          obtain ⟨rfl, rfl, rfl⟩ := key c0 c1 c2 c3 c4 c5 s1 hc
          exact absurd ha1 hna
        · rename_i hb
          cases h
          exact ⟨fun _ => ⟨b0, b1, b2, b3, b4, b5, self1, rfl, ha1, not_not.mp hb⟩,
            fun hc => by simp at hc⟩

/-- C7, amended, instance: an image with two correct blocks, for which `readRaw` returns `true`,
and an image whose temperature block has valid bit 0, for which it returns `false` with both
outputs untouched. -/
theorem readRaw_failure_outputs_witness :
    (readRaw (scripted [0x00, 0x44, 0x23, 0x00, 0x64, 0xC7]) 7 9 =
        some ⟨true, 17408, 25600, scriptedDone⟩ ∧
      ∃ b0 b1 b2 b3 b4 b5 self1,
        readReg (scripted [0x00, 0x44, 0x23, 0x00, 0x64, 0xC7]) ENS210_REG_T_VAL
          (List.replicate 6 0) 6 = some (true, [b0, b1, b2, b3, b4, b5], self1) ∧
        blockAccepted b0 b1 b2 ∧ blockAccepted b3 b4 b5) ∧
    (readRaw (scripted [0x00, 0x44, 0x7C, 0x00, 0x64, 0xC7]) 7 9 =
        some ⟨false, 7, 9, scriptedDone⟩ ∧
      (⟨false, 7, 9, scriptedDone⟩ : RawResult).humidity_raw = 9 ∧
      (∀ buf self1,
        readReg (scripted [0x00, 0x44, 0x7C, 0x00, 0x64, 0xC7]) ENS210_REG_T_VAL
          (List.replicate 6 0) 6 = some (false, buf, self1) →
        (⟨false, 7, 9, scriptedDone⟩ : RawResult).temperature_raw = 7) ∧
      (∀ b0 b1 b2 b3 b4 b5 self1,
        readReg (scripted [0x00, 0x44, 0x7C, 0x00, 0x64, 0xC7]) ENS210_REG_T_VAL
          (List.replicate 6 0) 6 = some (true, [b0, b1, b2, b3, b4, b5], self1) →
        ¬ blockAccepted b0 b1 b2 →
        (⟨false, 7, 9, scriptedDone⟩ : RawResult).temperature_raw = 7)) :=
  have hbad : readRaw (scripted [0x00, 0x44, 0x7C, 0x00, 0x64, 0xC7]) 7 9 =
      some ⟨false, 7, 9, scriptedDone⟩ := by
    rw [readRaw_scripted (by decide) (by decide) (by decide) (by decide) (by decide)
      (by decide)]
    decide
  ⟨⟨readRaw_good 7 9, (readRaw_failure_outputs _ 7 9 _ (readRaw_good 7 9)).1 rfl⟩,
    ⟨hbad, (readRaw_failure_outputs _ 7 9 _ hbad).2 rfl⟩⟩

/-- C8. Absolute humidity propagates a read failure: whenever `read` fails,
`getAbsoluteHumidity` returns the `NAN` marker and no computed number. -/
theorem getAbsoluteHumidity_nan_on_failure {F : Type} [DivisionRing F] (exp : F → F)
    (self : ENS210_7Semi) (tC hP : F) (r : ReadResult F) (h : read self tC hP = some r)
    (hf : r.ok = false) :
    getAbsoluteHumidity exp self = some (none, r.self) := by
  simp only [getAbsoluteHumidity, read_failure_initial_values h hf 0 0]

/-- C8, instance: the humidity block has valid bit 0, so the result is the `NAN` marker. -/
theorem getAbsoluteHumidity_nan_on_failure_witness :
    (read (scripted [0x00, 0x44, 0x23, 0x00, 0x64, 0xC6]) (20 : ℚ) 40 =
        some ⟨false, 20, 40, scriptedDone⟩ ∧
      (⟨false, 20, 40, scriptedDone⟩ : ReadResult ℚ).ok = false) ∧
      getAbsoluteHumidity (fun x : ℚ => 1 + x) (scripted [0x00, 0x44, 0x23, 0x00, 0x64, 0xC6]) =
        some (none, scriptedDone) :=
  have h : read (scripted [0x00, 0x44, 0x23, 0x00, 0x64, 0xC6]) (20 : ℚ) 40 =
      some ⟨false, 20, 40, scriptedDone⟩ :=
    read_of_readRaw_false (readRaw_humidity_invalid 0 0) rfl 20 40
  ⟨⟨h, rfl⟩, getAbsoluteHumidity_nan_on_failure _ _ 20 40 _ h rfl⟩

/-- C9, as stated, fails: the checksums of 0x14400 and 0x16400 are 0x11 and 0x63, not 0x40 and
0x20, so `read` rejects the response `{0x00,0x44,0x81,0x00,0x64,0x41}` and leaves its outputs
untouched. -/
theorem read_spec_fixture_rejected :
    getCRC7 0x14400 ≠ 0x40 ∧ getCRC7 0x16400 ≠ 0x20 ∧
      read (scripted [0x00, 0x44, 0x81, 0x00, 0x64, 0x41]) (20 : ℚ) 40 =
        some ⟨false, 20, 40, scriptedDone⟩ :=
  ⟨by rw [getCRC7_0x14400]; decide, by rw [getCRC7_0x16400]; decide,
    read_of_readRaw_false (readRaw_spec_fixture 0 0) rfl 20 40⟩

/-- C9, amended. End-to-end fixture: for the scripted response
`{0x00,0x44,0x23,0x00,0x64,0xC7}` both valid bits are set and both checksum fields are correct
(`getCRC7 0x14400 = 0x11`, `getCRC7 0x16400 = 0x63`), so `read` succeeds with temperature
`0x4400 / 64 - 273.15` and humidity `0x6400 / 512 = 50`. -/
theorem read_fixture_end_to_end (tC hP : ℚ) :
    getCRC7 0x14400 = 0x11 ∧ getCRC7 0x16400 = 0x63 ∧
      0x23 &&& 1 = 1 ∧ 0x23 >>> 1 = 0x11 ∧ 0xC7 &&& 1 = 1 ∧ 0xC7 >>> 1 = 0x63 ∧
      read (scripted [0x00, 0x44, 0x23, 0x00, 0x64, 0xC7]) tC hP =
        some ⟨true, (0x4400 : ℚ) / 64 - 273.15, (0x6400 : ℚ) / 512, scriptedDone⟩ ∧
      (0x6400 : ℚ) / 512 = 50 := by
  refine ⟨getCRC7_0x14400, getCRC7_0x16400, by decide, by decide, by decide, by decide, ?_,
    by norm_num⟩
  rw [read_of_readRaw_true (readRaw_good 0 0)]
  have e1 : (17408 &&& 0xFFFF : Nat) = 17408 := by decide
  have e2 : (25600 &&& 0xFFFF : Nat) = 25600 := by decide
  rw [e1, e2]
  norm_num

/-- C10, as stated, fails: 17536 / 64 is 274, not 274.15, and for the raw temperature 17536
`read` outputs 0.85 degrees Celsius, which is not within 0.01 of 1.0. -/
theorem read_17536_is_not_one :
    (17536 : ℚ) / 64 ≠ 274.15 ∧
      ∃ r : ReadResult ℚ,
        read (scripted [0x80, 0x44, 0xA1, 0x00, 0x64, 0xC7]) (20 : ℚ) 40 = some r ∧
        r.ok = true ∧ ¬ (|r.temperatureC - 1.0| < 0.01) := by
  refine ⟨by norm_num, _, read_of_readRaw_true (readRaw_17536 0 0) 20 40, rfl, ?_⟩
  have e1 : (17536 &&& 0xFFFF : Nat) = 17536 := by decide
  simp only [e1]
  norm_num [abs_lt]

/-- C10, amended. Converter example for temperature: for a validated temperature raw value of
17536, the conversion `raw / 64` gives exactly 274 kelvin and the Celsius output of `read` is
0.85 (so within 0.01 of 0.85). -/
theorem read_17536_celsius (self self1 : ENS210_7Semi) (t0 u0 u : Nat) (tC hP : ℚ)
    (h : readRaw self t0 u0 = some ⟨true, 17536, u, self1⟩) :
    (17536 : ℚ) / 64 = 274 ∧
      ∃ r : ReadResult ℚ, read self tC hP = some r ∧ r.ok = true ∧
        r.temperatureC = 0.85 ∧ |r.temperatureC - 0.85| < 0.01 := by
  obtain ⟨r1, h1, -, -, h2⟩ := readRaw_initial_values h 0 0
  rw [h2 rfl] at h1
  have e1 : (17536 &&& 0xFFFF : Nat) = 17536 := by decide
  have e : ((17536 : Nat) : ℚ) / 64.0 - 273.15 = 0.85 := by norm_num
  refine ⟨by norm_num, _, read_of_readRaw_true h1 tC hP, rfl, ?_, ?_⟩
  · simp only [e1]; exact e
  · simp only [e1, e]; norm_num

/-- C10, amended, instance: a bus scripted with the block for the raw temperature 17536. -/
theorem read_17536_celsius_witness :
    readRaw (scripted [0x80, 0x44, 0xA1, 0x00, 0x64, 0xC7]) 7 9 =
        some ⟨true, 17536, 25600, scriptedDone⟩ ∧
      ((17536 : ℚ) / 64 = 274 ∧
        ∃ r : ReadResult ℚ,
          read (scripted [0x80, 0x44, 0xA1, 0x00, 0x64, 0xC7]) (20 : ℚ) 40 = some r ∧
          r.ok = true ∧ r.temperatureC = 0.85 ∧ |r.temperatureC - 0.85| < 0.01) :=
  ⟨readRaw_17536 7 9, read_17536_celsius _ _ 7 9 25600 20 40 (readRaw_17536 7 9)⟩

/-! # Lifecycle operations on a scripted bus -/

theorem getD_tail (l : List Nat) (i d : Nat) : l.tail.getD i d = l.getD (i + 1) d := by
  cases l <;> rfl

/-- What `endTransmission` returns and leaves behind, in terms of the script. -/
theorem endTransmission_eq (w : TwoWire) (sendStop : Bool) :
    w.endTransmission sendStop =
      (w.status.getD 0 4 % 256,
        { w with status := w.status.tail, log := w.log ++ [WireOp.endTransmission sendStop] }) := by
  obtain ⟨status, replies, rx, log⟩ := w
  cases status <;> rfl

theorem requestFrom_eq (w : TwoWire) (address quantity : Nat) :
    w.requestFrom address quantity =
      { w with
        replies := w.replies.tail
        rx := (w.replies.headD []).take quantity
        log := w.log ++ [WireOp.requestFrom address quantity] } := by
  obtain ⟨status, replies, rx, log⟩ := w
  cases replies <;> simp [TwoWire.requestFrom]

theorem readReg_loop_eq (n : Nat) (w : TwoWire) (h : w.rx.length = n) :
    readReg.loop n w =
      (w.rx.map (· % 256), { w with rx := [], log := w.log ++ List.replicate n WireOp.read }) := by
  induction n generalizing w with
  | zero =>
    obtain ⟨status, replies, rx, log⟩ := w
    have : rx = [] := List.length_eq_zero.mp h
    subst this
    simp [readReg.loop]
  | succ n ih =>
    obtain ⟨status, replies, rx, log⟩ := w
    cases rx with
    | nil => simp at h
    | cons b rest =>
      have h1 : rest.length = n := by simpa using h
      simp only [readReg.loop, TwoWire.read]
      rw [ih _ h1]
      simp only [List.map_cons, List.replicate_succ, List.append_assoc, List.singleton_append,
        Prod.mk.injEq, List.cons.injEq, and_true, true_and]
      have h2 : (0 : Int) ≤ ((b % 256 : Nat) : Int) := Int.ofNat_nonneg _
      omega

/-- One register write on the bus `w`: the flag is the acknowledgment of the coming
transmission, and exactly the four calls of `writeOps` are made. -/
theorem writeReg_eq {self : ENS210_7Semi} {w : TwoWire} (h : self.i2c = some w)
    (reg value : Nat) :
    writeReg self reg value =
      (decide (acked w.status 0),
        { self with
          i2c := some
            { w with status := w.status.tail, log := w.log ++ writeOps self.address reg value } }) := by
  simp only [writeReg, h, TwoWire.beginTransmission, TwoWire.write, endTransmission_eq, acked,
    writeOps, List.append_assoc, List.singleton_append, List.cons_append, List.nil_append]

theorem writeReg_null {self : ENS210_7Semi} (h : self.i2c = none) (reg value : Nat) :
    writeReg self reg value = (false, self) := by
  simp only [writeReg, h]

/-- One register read on the bus `w`, in terms of the script: it fails when the address phase is
not acknowledged or the device delivers fewer than `len` bytes; otherwise it stores the first
`len` bytes of the reply. -/
theorem readReg_eq {self : ENS210_7Semi} {w : TwoWire} (h : self.i2c = some w)
    (reg : Nat) (data : List Nat) (len : Nat) :
    readReg self reg data len =
      if ¬ acked w.status 0 then
        some (false, data,
          { self with
            i2c := some
              { w with
                status := w.status.tail
                log := w.log ++ readAddressOps self.address reg } })
      else if (w.replies.headD []).length < len then
        some (false, data,
          { self with
            i2c := some
              { w with
                status := w.status.tail
                replies := w.replies.tail
                rx := (w.replies.headD []).take len
                log := w.log ++ readAddressOps self.address reg ++
                  [WireOp.requestFrom self.address len] } })
      else
        some (true, ((w.replies.headD []).take len).map (· % 256) ++ data.drop len,
          { self with
            i2c := some
              { w with
                status := w.status.tail
                replies := w.replies.tail
                rx := []
                log := w.log ++ readAddressOps self.address reg ++
                  [WireOp.requestFrom self.address len] ++ List.replicate len WireOp.read } }) := by
  simp only [readReg, h, TwoWire.beginTransmission, TwoWire.write, endTransmission_eq,
    requestFrom_eq, TwoWire.available, acked, readAddressOps]
  by_cases h0 : w.status.getD 0 4 % 256 = 0
  · simp only [h0, ne_eq, not_true_eq_false, if_false, not_false_eq_true]
    by_cases h1 : (w.replies.headD []).length < len
    · have h2 : ((List.take len (w.replies.headD [])).length : Int) ≠ (len : Int) := by
        rw [List.length_take]
        omega
      rw [if_pos h2, if_pos h1]
      simp
    · have h3 : (List.take len (w.replies.headD [])).length = len := by
        rw [List.length_take]
        omega
      have h2 : ¬ ((List.take len (w.replies.headD [])).length : Int) ≠ (len : Int) := by
        rw [h3]
        simp
      rw [if_neg h2, if_neg h1, readReg_loop_eq len _ h3]
      simp
  · rw [if_pos h0, if_pos h0]
    simp

theorem writeReg_mk (a p : Nat) (w : TwoWire) (reg value : Nat) :
    writeReg ⟨a, some w, p⟩ reg value =
      (decide (acked w.status 0),
        ⟨a, some { w with status := w.status.tail, log := w.log ++ writeOps a reg value }, p⟩) :=
  writeReg_eq rfl reg value

theorem readReg_mk (a p : Nat) (w : TwoWire) (reg : Nat) (data : List Nat) (len : Nat) :
    readReg ⟨a, some w, p⟩ reg data len =
      if ¬ acked w.status 0 then
        some (false, data,
          ⟨a, some { w with status := w.status.tail, log := w.log ++ readAddressOps a reg }, p⟩)
      else if (w.replies.headD []).length < len then
        some (false, data,
          ⟨a, some
            { w with
              status := w.status.tail
              replies := w.replies.tail
              rx := (w.replies.headD []).take len
              log := w.log ++ readAddressOps a reg ++ [WireOp.requestFrom a len] }, p⟩)
      else
        some (true, ((w.replies.headD []).take len).map (· % 256) ++ data.drop len,
          ⟨a, some
            { w with
              status := w.status.tail
              replies := w.replies.tail
              rx := []
              log := w.log ++ readAddressOps a reg ++ [WireOp.requestFrom a len] ++
                List.replicate len WireOp.read }, p⟩) :=
  readReg_eq rfl reg data len

theorem acked_tail (st : List Nat) (i : Nat) : acked st.tail i = acked st (i + 1) := by
  simp only [acked, getD_tail]

theorem begin_pins (w : TwoWire) (arch_esp32 : Bool) (sda scl : Nat) :
    (if arch_esp32 then
        if sda ≠ 255 ∧ scl ≠ 255 then w.begin (some (sda, scl)) else w.begin none
      else w.begin none) =
      w.begin (if arch_esp32 = true ∧ sda ≠ 255 ∧ scl ≠ 255 then some (sda, scl) else none) := by
  cases arch_esp32
  · simp
  · by_cases h : sda ≠ 255 ∧ scl ≠ 255
    · simp [h]
    · rw [if_pos rfl, if_neg h, if_neg (by tauto)]

/-! # The magnus formula -/

theorem getAbsoluteHumidity_eq_formula {F : Type} [DivisionRing F] (exp : F → F)
    {self self1 : ENS210_7Semi} {temperature humidity : F}
    (h : read self (0 : F) (0 : F) = some ⟨true, temperature, humidity, self1⟩) :
    getAbsoluteHumidity exp self = some (some (absoluteHumidityOf exp temperature humidity), self1) := by
  simp only [getAbsoluteHumidity, h, absoluteHumidityOf]

theorem exp_magnus_25_lower : (5.03 : ℝ) ≤ Real.exp ((17.67 * 25) / (25 + 243.5)) := by
  have e : ((17.67 : ℝ) * 25) / (25 + 243.5) = 1 + 231 / 358 := by norm_num
  rw [e, Real.exp_add]
  have h1 := Real.exp_one_gt_d9
  have h2 := Real.quadratic_le_exp_of_nonneg (by norm_num : (0 : ℝ) ≤ 231 / 358)
  have h3 : (1.85 : ℝ) ≤ 1 + 231 / 358 + (231 / 358) ^ 2 / 2 := by norm_num
  have h4 : (1.85 : ℝ) ≤ Real.exp (231 / 358) := le_trans h3 h2
  nlinarith [Real.exp_pos (1 : ℝ), Real.exp_pos (231 / 358 : ℝ)]

theorem exp_magnus_25_upper : Real.exp ((17.67 * 25) / (25 + 243.5)) ≤ (5.21 : ℝ) := by
  have e : ((17.67 : ℝ) * 25) / (25 + 243.5) = 1 + 231 / 358 := by norm_num
  rw [e, Real.exp_add]
  have h1 := Real.exp_one_lt_d9
  have h2 := Real.exp_bound' (by norm_num : (0 : ℝ) ≤ 231 / 358)
    (by norm_num : (231 / 358 : ℝ) ≤ 1) (by decide : 0 < 3)
  have h3 : (∑ m ∈ Finset.range 3, (231 / 358 : ℝ) ^ m / (m.factorial : ℝ)) +
      (231 / 358 : ℝ) ^ 3 * ((3 : ℕ) + 1) / ((Nat.factorial 3 : ℕ) * (3 : ℕ)) ≤ 1.914 := by
    simp only [Finset.sum_range_succ, Finset.sum_range_zero, Nat.factorial]
    norm_num
  have h4 : Real.exp (231 / 358) ≤ (1.914 : ℝ) := le_trans h2 h3
  nlinarith [Real.exp_pos (1 : ℝ), Real.exp_pos (231 / 358 : ℝ)]

/-! # The magnus formula at the raw temperature nearest to 25 degrees Celsius -/

theorem getCRC7_0x14A8A : getCRC7 84618 = 104 := by
  rw [getCRC7_eq_crcSteps]; decide

/-- The image with both blocks correct, for temperature 19082 (25.00625 degrees Celsius) and
humidity 0x6400 (50 percent). -/
theorem readRaw_19082 (t0 u0 : Nat) :
    readRaw (scripted [0x8A, 0x4A, 0xD1, 0x00, 0x64, 0xC7]) t0 u0 =
      some ⟨true, 19082, 25600, scriptedDone⟩ := by
  rw [readRaw_scripted (by decide) (by decide) (by decide) (by decide) (by decide) (by decide)]
  norm_num [getCRC7_0x14A8A, getCRC7_0x16400]

theorem exp_magnus_19082_lower :
    (5.03 : ℝ) ≤ Real.exp ((17.67 * (4001 / 160)) / (4001 / 160 + 243.5)) := by
  have e : ((17.67 : ℝ) * (4001 / 160)) / (4001 / 160 + 243.5) = 1 + 2773667 / 4296100 := by
    norm_num
  rw [e, Real.exp_add]
  have h1 := Real.exp_one_gt_d9
  have h2 := Real.quadratic_le_exp_of_nonneg (by norm_num : (0 : ℝ) ≤ 2773667 / 4296100)
  have h3 : (1.853 : ℝ) ≤ 1 + 2773667 / 4296100 + (2773667 / 4296100) ^ 2 / 2 := by norm_num
  have h4 : (1.853 : ℝ) ≤ Real.exp (2773667 / 4296100) := le_trans h3 h2
  nlinarith [Real.exp_pos (1 : ℝ), Real.exp_pos (2773667 / 4296100 : ℝ)]

theorem exp_magnus_19082_upper :
    Real.exp ((17.67 * (4001 / 160)) / (4001 / 160 + 243.5)) ≤ (5.21 : ℝ) := by
  have e : ((17.67 : ℝ) * (4001 / 160)) / (4001 / 160 + 243.5) = 1 + 2773667 / 4296100 := by
    norm_num
  rw [e, Real.exp_add]
  have h1 := Real.exp_one_lt_d9
  have h2 := Real.exp_bound' (by norm_num : (0 : ℝ) ≤ 2773667 / 4296100)
    (by norm_num : (2773667 / 4296100 : ℝ) ≤ 1) (by decide : 0 < 3)
  have h3 : (∑ m ∈ Finset.range 3, (2773667 / 4296100 : ℝ) ^ m / (m.factorial : ℝ)) +
      (2773667 / 4296100 : ℝ) ^ 3 * ((3 : ℕ) + 1) / ((Nat.factorial 3 : ℕ) * (3 : ℕ)) ≤ 1.915 := by
    simp only [Finset.sum_range_succ, Finset.sum_range_zero, Nat.factorial]
    norm_num
  have h4 : Real.exp (2773667 / 4296100) ≤ (1.915 : ℝ) := le_trans h2 h3
  nlinarith [Real.exp_pos (1 : ℝ), Real.exp_pos (2773667 / 4296100 : ℝ)]

/-- Over the reals, with the two blocks for raw temperature 19082 and raw humidity 25600, `read`
outputs 25.00625 degrees Celsius and 50 percent. -/
theorem read_19082 (tC hP : ℝ) :
    read (scripted [0x8A, 0x4A, 0xD1, 0x00, 0x64, 0xC7]) tC hP =
      some ⟨true, 4001 / 160, 50, scriptedDone⟩ := by
  rw [read_of_readRaw_true (readRaw_19082 0 0)]
  have e1 : (19082 &&& 0xFFFF : Nat) = 19082 := by decide
  have e2 : (25600 &&& 0xFFFF : Nat) = 25600 := by decide
  rw [e1, e2]
  norm_num

theorem getAbsoluteHumidity_19082 :
    getAbsoluteHumidity Real.exp (scripted [0x8A, 0x4A, 0xD1, 0x00, 0x64, 0xC7]) =
      some (some (2.1674 * (6.112 * Real.exp ((17.67 * (4001 / 160)) / (4001 / 160 + 243.5))) *
        50 / (273.15 + 4001 / 160)), scriptedDone) := by
  rw [getAbsoluteHumidity_eq_formula Real.exp (read_19082 0 0)]
  rfl

theorem magnus_bounds {E D : ℝ} (hl : 5.03 ≤ E) (hu : E ≤ 5.21) (hd : 298.15 ≤ D)
    (hd1 : D ≤ 298.16) : 11.0 ≤ 2.1674 * (6.112 * E) * 50 / D ∧ 2.1674 * (6.112 * E) * 50 / D ≤ 12.0 := by
  have hpos : (0 : ℝ) < D := by linarith
  constructor
  · rw [le_div_iff₀ hpos]
    nlinarith
  · rw [div_le_iff₀ hpos]
    nlinarith

/-! # Independent validation of the two sub-blocks -/

theorem word17_eq {b0 b1 : Nat} (b2 : Nat) (h0 : b0 < 256) (h1 : b1 < 256) :
    (((b2 &&& 1) <<< 16) ||| (b1 <<< 8)) ||| b0 = (b2 % 2) * 65536 + b1 * 256 + b0 := by
  have h := word_eq b2 h0 h1
  have hm : b2 % 2 < 2 := Nat.mod_lt _ (by decide)
  have e1 : ((b2 &&& 0x01) <<< 16) % 2 ^ 32 = (b2 &&& 1) <<< 16 := by
    rw [Nat.and_one_is_mod, Nat.shiftLeft_eq]
    exact Nat.mod_eq_of_lt (by omega)
  have e2 : (b1 <<< 8) % 2 ^ 32 = b1 <<< 8 := by
    rw [Nat.shiftLeft_eq]
    exact Nat.mod_eq_of_lt (by omega)
  rw [e1, e2] at h
  exact h

theorem value16_eq {b0 b1 : Nat} (h0 : b0 < 256) : (b1 <<< 8) ||| b0 = b1 * 256 + b0 := by
  rw [Nat.shiftLeft_eq, Nat.mul_comm, ← Nat.mul_add_lt_is_or (i := 8) (by omega : b0 < 2 ^ 8)]

/-! # Iterations of the division loop -/

theorem loopTrace_done (val : Nat) : getCRC7.loopTrace val 64 68 = (val, []) := by
  rw [getCRC7.loopTrace, if_neg]
  decide

theorem loopTrace_step (n : Nat) (hn : n ≤ 16) (val : Nat) :
    getCRC7.loopTrace val (2 ^ (n + 7)) (137 <<< n) =
      ((getCRC7.loopTrace (if val &&& 2 ^ (n + 7) ≠ 0 then val ^^^ (137 <<< n) else val)
          (2 ^ (n + 6)) ((137 <<< n) >>> 1)).1,
        2 ^ (n + 7) ::
          (getCRC7.loopTrace (if val &&& 2 ^ (n + 7) ≠ 0 then val ^^^ (137 <<< n) else val)
            (2 ^ (n + 6)) ((137 <<< n) >>> 1)).2) := by
  have h1 : 2 ^ (n + 7) &&& (131071 <<< 7) ≠ 0 := by
    interval_cases n <;> decide
  have h2 : 2 ^ (n + 7) >>> 1 = 2 ^ (n + 6) := by
    rw [Nat.shiftRight_eq_div_pow, pow_succ]; simp
  rw [getCRC7.loopTrace, if_pos h1, h2]

theorem loopTrace_eq (n : Nat) (hn : n ≤ 17) (val : Nat) :
    getCRC7.loopTrace val (2 ^ (n + 6)) ((137 <<< n) >>> 1) =
      (crcSteps n val, (List.range n).reverse.map (fun i => 2 ^ (i + 7))) := by
  induction n generalizing val with
  | zero => exact loopTrace_done val
  | succ n ih =>
    have h3 : (137 <<< (n + 1)) >>> 1 = 137 <<< n := by
      rw [Nat.shiftRight_eq_div_pow, Nat.shiftLeft_eq, Nat.shiftLeft_eq, pow_succ, ← mul_assoc]
      simp
    rw [h3, show n + 1 + 6 = n + 7 from rfl, loopTrace_step n (by omega), ih (by omega)]
    simp [crcSteps, List.range_succ]

/-! # Linearity of the division over GF(2) -/

theorem shiftRight_xor (a b k : Nat) : (a ^^^ b) >>> k = (a >>> k) ^^^ (b >>> k) := by
  apply Nat.eq_of_testBit_eq
  intro i
  simp only [Nat.testBit_shiftRight, Nat.testBit_xor]

theorem shiftLeft_xor (a b k : Nat) : (a ^^^ b) <<< k = (a <<< k) ^^^ (b <<< k) := by
  apply Nat.eq_of_testBit_eq
  intro i
  simp only [Nat.testBit_shiftLeft, Nat.testBit_xor]
  cases decide (i ≥ k) <;> simp

theorem xor_mod_two_pow (a b k : Nat) : (a ^^^ b) % 2 ^ k = (a % 2 ^ k) ^^^ (b % 2 ^ k) := by
  rw [← Nat.and_pow_two_sub_one_eq_mod, ← Nat.and_pow_two_sub_one_eq_mod,
    ← Nat.and_pow_two_sub_one_eq_mod, Nat.and_xor_distrib_right]

/-- A multiple of `2 ^ k` and a value below `2 ^ k` have no bit in common, so their sum is their
xor. -/
theorem mul_add_eq_xor {k y : Nat} (hy : y < 2 ^ k) (H : Nat) : 2 ^ k * H + y = (2 ^ k * H) ^^^ y := by
  rw [Nat.mul_add_lt_is_or hy]
  apply Nat.eq_of_testBit_eq
  intro i
  rw [Nat.testBit_or, Nat.testBit_xor, Nat.testBit_mul_pow_two]
  by_cases hi : i ≥ k
  · have : y.testBit i = false :=
      Nat.testBit_lt_two_pow (lt_of_lt_of_le hy (Nat.pow_le_pow_right (by decide) hi))
    simp [this]
  · simp [hi]

theorem crcStep_xor (k G a b : Nat) :
    (if (a ^^^ b) &&& 2 ^ k ≠ 0 then (a ^^^ b) ^^^ G else a ^^^ b) =
      (if a &&& 2 ^ k ≠ 0 then a ^^^ G else a) ^^^ (if b &&& 2 ^ k ≠ 0 then b ^^^ G else b) := by
  simp only [and_two_pow_ne_zero_iff, Nat.testBit_xor]
  cases ha : a.testBit k <;> cases hb : b.testBit k <;> simp
  · rw [Nat.xor_assoc]
  · rw [Nat.xor_assoc, Nat.xor_assoc, Nat.xor_comm G b]
  · rw [Nat.xor_assoc, Nat.xor_comm G (b ^^^ G), Nat.xor_assoc, Nat.xor_self, Nat.xor_zero]

/-- The division steps are linear over GF(2). -/
theorem crcSteps_xor (n : Nat) : ∀ a b, crcSteps n (a ^^^ b) = crcSteps n a ^^^ crcSteps n b := by
  induction n with
  | zero => intro a b; rfl
  | succ n ih =>
    intro a b
    rw [crcSteps, crcSteps, crcSteps, crcStep_xor, ih]

/-- The division steps leave a register alone in which none of the tested bits is set. -/
theorem crcSteps_of_bits_clear (n a : Nat) (h : ∀ j, 7 ≤ j → j < n + 7 → a.testBit j = false) :
    crcSteps n a = a := by
  induction n with
  | zero => rfl
  | succ n ih =>
    have hb : ¬ (a &&& 2 ^ (n + 7) ≠ 0) := by
      rw [and_two_pow_ne_zero_iff, h (n + 7) (by omega) (by omega)]
      simp
    rw [crcSteps, if_neg hb]
    exact ih (fun j h1 h2 => h j h1 (by omega))

/-! # One-bit and two-bit corruption of a block -/

theorem blockWord_eq (V : Nat) (hV : V < 65536) :
    blockWord V = 2 ^ 17 * getCRC7 (65536 + V) + (65536 + V) := by
  have e3 : V ||| 0x10000 = 65536 + V := by
    have h : 65536 * 1 + V = 65536 * 1 ||| V :=
      Nat.mul_add_lt_is_or (i := 16) (b := V) (by omega) 1
    rw [Nat.mul_one] at h
    rw [Nat.lor_comm, ← h]
  have e4 : V ||| (1 <<< 16) = 65536 + V := e3
  rw [blockWord, e3, e4, Nat.lor_comm, Nat.shiftLeft_eq, Nat.mul_comm,
    ← Nat.mul_add_lt_is_or (i := 17) (by omega : 65536 + V < 2 ^ 17)]

theorem wordBytes_blockWord (V : Nat) (hV : V < 65536) : wordBytes (blockWord V) = encodeBlock V := by
  have hc := getCRC7_lt (65536 + V)
  rw [encodeBlock_eq V hV, blockWord_eq V hV, wordBytes]
  have e1 : ∀ x : Nat, x &&& 0xFF = x % 256 := fun x => Nat.and_pow_two_sub_one_eq_mod x 8
  simp only [e1, Nat.shiftRight_eq_div_pow]
  congr 1
  · omega
  · congr 1
    · omega
    · congr 1
      omega

theorem blockWord_17408 : blockWord 17408 = 2311168 := by
  rw [blockWord_eq 17408 (by decide), show 65536 + 17408 = 82944 from rfl, getCRC7_0x14400]
  decide

/-- Acceptance of the bytes of a 24-bit word, read off the word: bit 16 is set and the upper
seven bits are the checksum of the lower seventeen. -/
theorem blockAccepted_wordBytes {W : Nat} (hW : W < 2 ^ 24)
    (h : blockAccepted (W &&& 0xFF) ((W >>> 8) &&& 0xFF) ((W >>> 16) &&& 0xFF)) :
    W.testBit 16 = true ∧ getCRC7 (W % 2 ^ 17) = W >>> 17 := by
  have e1 : ∀ x : Nat, x &&& 0xFF = x % 256 := fun x => Nat.and_pow_two_sub_one_eq_mod x 8
  rw [e1, e1, e1, blockAccepted_iff _ (Nat.mod_lt _ (by decide)) (Nat.mod_lt _ (by decide))] at h
  simp only [Nat.shiftRight_eq_div_pow, not_or, not_not] at h ⊢
  obtain ⟨h1, h2⟩ := h
  have hb : W / 2 ^ 16 % 2 = 1 := by omega
  refine ⟨by rw [Nat.testBit_to_div_mod]; simpa using hb, ?_⟩
  have e2 : 65536 + W / 2 ^ 8 % 256 * 256 + W % 256 = W % 2 ^ 17 := by omega
  have e3 : W / 2 ^ 16 % 256 / 2 = W / 2 ^ 17 := by omega
  rw [e2, e3] at h2
  exact h2

/-- The checksum of a corrupted payload is the checksum of the payload xor the remainder of the
error pattern. -/
theorem getCRC7_xor (x e : Nat) (hx : x < 2 ^ 17) (he : e < 2 ^ 17) :
    getCRC7 (x ^^^ e) = getCRC7 x ^^^ crcSteps 17 (e <<< 7) := by
  have hxe : x ^^^ e < 2 ^ 17 := Nat.xor_lt_two_pow hx he
  rw [getCRC7_of_lt _ hxe, getCRC7_of_lt _ hx, ← crcSteps_xor]
  congr 1
  have a1 : ∀ y : Nat, (y <<< 7) ||| 127 = (y <<< 7) ^^^ 127 := by
    intro y
    rw [Nat.shiftLeft_eq, Nat.mul_comm, ← Nat.mul_add_lt_is_or (by decide : 127 < 2 ^ 7),
      mul_add_eq_xor (by decide : 127 < 2 ^ 7)]
  rw [a1, a1, shiftLeft_xor, Nat.xor_assoc, Nat.xor_assoc, Nat.xor_comm (e <<< 7)]

/-- No error pattern of one or two bits within the 24 bits of a block is consistent: either it
clears the valid flag or its checksum part differs from the remainder of its payload part. -/
theorem no_light_error_pattern :
    ∀ p < 24, ∀ q < 24,
      (p ≠ q →
        ¬ (((1 <<< p) ^^^ (1 <<< q)).testBit 16 = false ∧
          crcSteps 17 ((((1 <<< p) ^^^ (1 <<< q)) % 2 ^ 17) <<< 7) =
            ((1 <<< p) ^^^ (1 <<< q)) >>> 17)) ∧
      ¬ ((1 <<< p).testBit 16 = false ∧
        crcSteps 17 (((1 <<< p) % 2 ^ 17) <<< 7) = (1 <<< p) >>> 17) := by
  decide

theorem light_pattern_lt {p q E : Nat} (hp : p < 24) (hq : q < 24)
    (hE : E = 1 <<< p ∨ (p ≠ q ∧ E = (1 <<< p) ^^^ (1 <<< q))) : E < 2 ^ 24 := by
  have h1 : ∀ k, k < 24 → 1 <<< k < 2 ^ 24 := by
    intro k hk
    rw [Nat.shiftLeft_eq, Nat.one_mul]
    exact Nat.pow_lt_pow_right (by decide) hk
  rcases hE with rfl | ⟨-, rfl⟩
  · exact h1 p hp
  · exact Nat.xor_lt_two_pow (h1 p hp) (h1 q hq)

/-- A correctly constructed block with one bit or two distinct bits flipped is rejected. -/
theorem corrupted_block_rejected {V p q E : Nat} (hV : V < 65536) (hp : p < 24) (hq : q < 24)
    (hE : E = 1 <<< p ∨ (p ≠ q ∧ E = (1 <<< p) ^^^ (1 <<< q))) :
    ¬ blockAccepted ((blockWord V ^^^ E) &&& 0xFF) (((blockWord V ^^^ E) >>> 8) &&& 0xFF)
      (((blockWord V ^^^ E) >>> 16) &&& 0xFF) := by
  intro hacc
  have hc := getCRC7_lt (65536 + V)
  have hElt := light_pattern_lt hp hq hE
  have hW : blockWord V < 2 ^ 24 := by rw [blockWord_eq V hV]; omega
  obtain ⟨hbit, hcrc⟩ := blockAccepted_wordBytes (Nat.xor_lt_two_pow hW hElt) hacc
  have w16 : (blockWord V).testBit 16 = true := by
    rw [Nat.testBit_to_div_mod, blockWord_eq V hV]
    simp only [decide_eq_true_eq]
    omega
  have wlo : blockWord V % 2 ^ 17 = 65536 + V := by rw [blockWord_eq V hV]; omega
  have whi : blockWord V >>> 17 = getCRC7 (65536 + V) := by
    rw [Nat.shiftRight_eq_div_pow, blockWord_eq V hV]
    omega
  rw [Nat.testBit_xor, w16] at hbit
  have e16 : E.testBit 16 = false := by
    cases h : E.testBit 16
    · rfl
    · rw [h] at hbit; simp at hbit
  rw [xor_mod_two_pow, wlo, shiftRight_xor, whi,
    getCRC7_xor _ _ (by omega) (Nat.mod_lt _ (by decide)), Nat.xor_right_inj] at hcrc
  obtain ⟨h2, h1⟩ := no_light_error_pattern p hp q hq
  rcases hE with rfl | ⟨hne, rfl⟩
  · exact h1 ⟨e16, hcrc⟩
  · exact h2 hne ⟨e16, hcrc⟩

theorem readRaw_of_rejected {self self1 : ENS210_7Semi} {b0 b1 b2 b3 b4 b5 : Nat}
    (h : readReg self ENS210_REG_T_VAL (List.replicate 6 0) 6 =
      some (true, [b0, b1, b2, b3, b4, b5], self1))
    (hr : ¬ blockAccepted b0 b1 b2 ∨ ¬ blockAccepted b3 b4 b5) (t0 u0 : Nat) :
    ∃ r, readRaw self t0 u0 = some r ∧ r.ok = false := by
  obtain ⟨c0, c1, c2, c3, c4, c5, hb, h0, h1, h2, h3, h4, h5⟩ := readReg_image h
  simp only [List.cons.injEq, and_true] at hb
  obtain ⟨rfl, rfl, rfl, rfl, rfl, rfl⟩ := hb
  rw [blockAccepted_iff b2 h0 h1, blockAccepted_iff b5 h3 h4, not_not, not_not] at hr
  rw [readRaw_of_image h h0 h1 h2 h3 h4 h5]
  split
  · exact ⟨_, rfl, rfl⟩
  · rename_i hn
    rw [if_pos (hr.resolve_left hn)]
    exact ⟨_, rfl, rfl⟩

/-! # Starting a measurement after a failed initialization -/

/-- Whatever its result, `begin` leaves the object bound to the bus and the address it was
given. -/
theorem begin_binds_bus (self : ENS210_7Semi) (arch_esp32 : Bool) (a : Nat) (w : TwoWire)
    (clock sda scl : Nat) :
    ∃ ok self1 w1, begin self arch_esp32 a w clock sda scl = some (ok, self1) ∧
      self1.address = a ∧ self1.i2c = some w1 := by
  obtain ⟨st, rp, rx, lg⟩ := w
  have e0 : st.getD 0 4 % 256 = 0 ↔ acked st 0 := Iff.rfl
  simp only [begin]
  rw [begin_pins]
  simp only [TwoWire.begin, TwoWire.setClock, TwoWire.beginTransmission,
    endTransmission_eq, readDeviceId, readReg_mk, reset, writeReg_mk, ENS210_REG_PART_ID,
    ENS210_REG_SYS_CTRL, ENS210_REG_SENS_RUN, acked_tail, ne_eq, e0]
  generalize rp.headD [] = reply
  by_cases h0 : acked st 0
  · by_cases h1 : acked st 1
    · by_cases hd : reply.length < 2
      · simp [h0, h1, hd]
      · by_cases h2 : acked st 2
        · by_cases h3 : acked st 3
          · by_cases h4 : acked st 4
            · simp [h0, h1, hd, h2, h3, h4, writeReg_mk, acked_tail]
            · simp [h0, h1, hd, h2, h3, h4, writeReg_mk, acked_tail]
          · simp [h0, h1, hd, h2, h3, writeReg_mk, acked_tail]
        · simp [h0, h1, hd, h2, writeReg_mk, acked_tail]
    · simp [h0, h1]
  · simp [h0]

/-! # The claims, continued -/

/-- C11, as stated, fails: on a bus that does not acknowledge the presence probe but
acknowledges the next transmission, `begin` returns `false` and the `startSingleShot` that
follows returns `true`. -/
theorem startSingleShot_succeeds_after_failed_begin :
    begin ⟨0, none, 0⟩ true ENS210_DEFAULT_ADDRESS probeNackBus 400000 255 255 =
        some (false, afterFailedBegin) ∧
      (startSingleShot afterFailedBegin).1 = true := by
  decide

/-- C11, amended. The driver keeps no initialization state: after `begin` has returned `false`
the object is still bound to the bus, and a subsequent `startSingleShot` issues the write
SENS_START (0x22) <- 3 once and returns `true` exactly when the bus acknowledges that write. -/
theorem startSingleShot_after_failed_begin (self self1 : ENS210_7Semi) (arch_esp32 : Bool)
    (a : Nat) (w : TwoWire) (clock sda scl : Nat)
    (h : begin self arch_esp32 a w clock sda scl = some (false, self1)) :
    ∃ w1, self1.i2c = some w1 ∧ self1.address = a ∧
      startSingleShot self1 =
        (decide (acked w1.status 0),
          { self1 with
            i2c := some
              { w1 with status := w1.status.tail, log := w1.log ++ writeOps a 0x22 3 } }) := by
  obtain ⟨ok, s1, w1, hb, ha, hi⟩ := begin_binds_bus self arch_esp32 a w clock sda scl
  rw [hb] at h
  simp only [Option.some.injEq, Prod.mk.injEq] at h
  obtain ⟨-, rfl⟩ := h
  refine ⟨w1, hi, ha, ?_⟩
  rw [startSingleShot, writeReg_eq hi, ha]
  rfl

/-- C11, amended, instance: the presence probe is not acknowledged, the write that follows
is, and `startSingleShot` returns `true`. -/
theorem startSingleShot_after_failed_begin_witness :
    begin ⟨0, none, 0⟩ true ENS210_DEFAULT_ADDRESS probeNackBus 400000 255 255 =
        some (false, afterFailedBegin) ∧
      ∃ w1, afterFailedBegin.i2c = some w1 ∧ afterFailedBegin.address = ENS210_DEFAULT_ADDRESS ∧
        startSingleShot afterFailedBegin =
          (decide (acked w1.status 0),
            { afterFailedBegin with
              i2c := some
                { w1 with
                  status := w1.status.tail
                  log := w1.log ++ writeOps ENS210_DEFAULT_ADDRESS 0x22 3 } }) :=
  ⟨by decide,
    startSingleShot_after_failed_begin ⟨0, none, 0⟩ afterFailedBegin true ENS210_DEFAULT_ADDRESS
      probeNackBus 400000 255 255 (by decide)⟩

/-- C12. Initialization sequence and immediate failure propagation: `begin` performs, in this
order and each at most once, the presence probe at the configured address, the 2-byte read of
PART_ID (0x00), the writes SYS_CTRL (0x10) <- 0x80, SYS_CTRL (0x10) <- 0x00 and
SENS_RUN (0x21) <- 0x03; it returns `true` exactly when every step succeeds, and after the
first failing step it returns `false` with no further bus call. -/
theorem begin_sequence (self : ENS210_7Semi) (arch_esp32 : Bool) (a : Nat) (w : TwoWire)
    (clock sda scl : Nat) :
    ∃ self1 w1,
      begin self arch_esp32 a w clock sda scl =
        some (decide (acked w.status 0 ∧ acked w.status 1 ∧ 2 ≤ (w.replies.headD []).length ∧
            acked w.status 2 ∧ acked w.status 3 ∧ acked w.status 4), self1) ∧
      self1.address = a ∧ self1.i2c = some w1 ∧
      w1.log = w.log ++
        [WireOp.begin (if arch_esp32 = true ∧ sda ≠ 255 ∧ scl ≠ 255 then some (sda, scl) else none),
          WireOp.setClock clock] ++
        [WireOp.beginTransmission a, WireOp.endTransmission true] ++
        (if acked w.status 0 then
          readAddressOps a 0x00 ++
            (if acked w.status 1 then
              [WireOp.requestFrom a 2] ++
                (if 2 ≤ (w.replies.headD []).length then
                  [WireOp.read, WireOp.read] ++ writeOps a 0x10 0x80 ++
                    (if acked w.status 2 then
                      writeOps a 0x10 0x00 ++
                        (if acked w.status 3 then writeOps a 0x21 0x03 else [])
                    else [])
                else [])
            else [])
        else []) := by
  obtain ⟨st, rp, rx, lg⟩ := w
  have e0 : st.getD 0 4 % 256 = 0 ↔ acked st 0 := Iff.rfl
  simp only [begin]
  rw [begin_pins]
  simp only [TwoWire.begin, TwoWire.setClock, TwoWire.beginTransmission,
    endTransmission_eq, readDeviceId, readReg_mk, reset, writeReg_mk, ENS210_REG_PART_ID,
    ENS210_REG_SYS_CTRL, ENS210_REG_SENS_RUN, acked_tail, ne_eq, e0]
  generalize rp.headD [] = reply
  by_cases h0 : acked st 0
  · by_cases h1 : acked st 1
    · by_cases hd : 2 ≤ reply.length
      · have hd1 : ¬ reply.length < 2 := by omega
        by_cases h2 : acked st 2
        · by_cases h3 : acked st 3
          · by_cases h4 : acked st 4
            · simp [h0, h1, hd, hd1, h2, h3, h4, writeReg_mk, acked_tail]
            · simp [h0, h1, hd, hd1, h2, h3, h4, writeReg_mk, acked_tail]
          · simp [h0, h1, hd, hd1, h2, h3, writeReg_mk, acked_tail]
        · simp [h0, h1, hd, hd1, h2, writeReg_mk, acked_tail]
      · have hd1 : reply.length < 2 := by omega
        simp [h0, h1, hd, hd1, writeReg_mk, acked_tail]
    · simp [h0, h1]
  · simp [h0]

/-- C13. Command order of `startContinuous`: it writes SENS_RUN (0x21) <- 0x03 and then
SENS_START (0x22) <- 0x03; it returns `true` exactly when both writes are acknowledged, and when
the first write is not acknowledged it returns `false` without issuing the second write. Each
write is issued once. -/
theorem startContinuous_command_order (self : ENS210_7Semi) (w : TwoWire)
    (h : self.i2c = some w) :
    ∃ w1, startContinuous self = (decide (acked w.status 0 ∧ acked w.status 1), { self with i2c := some w1 }) ∧
      w1.log = w.log ++ writeOps self.address 0x21 0x03 ++
        (if acked w.status 0 then writeOps self.address 0x22 0x03 else []) := by
  obtain ⟨a, i2c, p⟩ := self
  obtain ⟨st, rp, rx, lg⟩ := w
  simp only at h
  subst h
  simp only [startContinuous, writeReg_mk, ENS210_REG_SENS_RUN, ENS210_REG_SENS_START]
  by_cases h0 : acked st 0
  · by_cases h1 : acked st 1
    · simp [h0, h1, writeReg_mk, acked_tail]
    · simp [h0, h1, writeReg_mk, acked_tail]
  · simp [h0]

/-- C13, instance: both writes are acknowledged, so both are issued and the result is `true`. -/
theorem startContinuous_command_order_witness :
    (onBus [0, 0] []).i2c = some ⟨[0, 0], [], [], []⟩ ∧
      ∃ w1,
        startContinuous (onBus [0, 0] []) =
          (decide (acked [0, 0] 0 ∧ acked [0, 0] 1), { onBus [0, 0] [] with i2c := some w1 }) ∧
        w1.log = [] ++ writeOps (onBus [0, 0] []).address 0x21 0x03 ++
          (if acked [0, 0] 0 then writeOps (onBus [0, 0] []).address 0x22 0x03 else []) :=
  ⟨rfl, startContinuous_command_order (onBus [0, 0] []) ⟨[0, 0], [], [], []⟩ rfl⟩

/-- C14. Readiness poll: `available` performs one 1-byte read of SYS_STAT (0x11) and no register
write; it returns `true` exactly when that read succeeds (address phase acknowledged, one byte
delivered) and bit 0 of the status byte is 1, whatever the other seven bits are, and `false`
when the read fails. -/
theorem available_poll (self : ENS210_7Semi) (w : TwoWire) (h : self.i2c = some w) :
    ∃ w1,
      available self =
        some (decide (acked w.status 0 ∧ w.replies.headD [] ≠ [] ∧
            ((w.replies.headD []).headD 0 % 256) &&& 1 = 1),
          { self with i2c := some w1 }) ∧
      w1.log = w.log ++ readAddressOps self.address 0x11 ++
        (if acked w.status 0 then
          [WireOp.requestFrom self.address 1] ++
            (if w.replies.headD [] ≠ [] then [WireOp.read] else [])
        else []) := by
  obtain ⟨a, i2c, p⟩ := self
  obtain ⟨st, rp, rx, lg⟩ := w
  simp only at h
  subst h
  simp only [available, readReg_mk, ENS210_REG_SYS_STAT]
  by_cases h0 : acked st 0
  · cases hr : rp.headD [] with
    | nil => simp [h0, hr]
    | cons b rest =>
      have hb : (b % 256) % 2 < 2 := Nat.mod_lt _ (by decide)
      by_cases h1 : (b % 256) % 2 = 1
      · simp [h0, hr, h1]
      · have h2 : (b % 256) % 2 = 0 := by omega
        simp [h0, hr, h2]
  · simp [h0]

/-- C14, instance: the read is acknowledged and delivers the status byte 0x01, so the result is
`true`. -/
theorem available_poll_witness :
    (onBus [0] [[0x01]]).i2c = some ⟨[0], [[0x01]], [], []⟩ ∧
      ∃ w1,
        available (onBus [0] [[0x01]]) =
          some (decide (acked [0] 0 ∧ ([[0x01]] : List (List Nat)).headD [] ≠ [] ∧
              ((([[0x01]] : List (List Nat)).headD []).headD 0 % 256) &&& 1 = 1),
            { onBus [0] [[0x01]] with i2c := some w1 }) ∧
        w1.log = [] ++ readAddressOps (onBus [0] [[0x01]]).address 0x11 ++
          (if acked [0] 0 then
            [WireOp.requestFrom (onBus [0] [[0x01]]).address 1] ++
              (if ([[0x01]] : List (List Nat)).headD [] ≠ [] then [WireOp.read] else [])
          else []) :=
  ⟨rfl, available_poll (onBus [0] [[0x01]]) ⟨[0], [[0x01]], [], []⟩ rfl⟩

/-- C15. Absolute-humidity sanity bound: after a successful read, `getAbsoluteHumidity` returns
the value of the magnus formula `2.1674 * es * RH / (273.15 + T)` with
`es = 6.112 * exp (17.67 * T / (T + 243.5))` at the temperature and humidity read; evaluated
over the reals at `T = 25.0` and `RH = 50.0` the formula lies between 11.0 and 12.0 g/m^3, and
so does the value the function returns for the raw reading nearest to that point (raw
temperature 19082, raw humidity 25600). -/
theorem absoluteHumidity_25_50 :
    (∀ (self self1 : ENS210_7Semi) (T RH : ℝ),
      read self (0 : ℝ) 0 = some ⟨true, T, RH, self1⟩ →
        getAbsoluteHumidity Real.exp self =
          some (some (2.1674 * (6.112 * Real.exp ((17.67 * T) / (T + 243.5))) * RH /
            (273.15 + T)), self1)) ∧
    ((11.0 : ℝ) ≤
        2.1674 * (6.112 * Real.exp ((17.67 * 25) / (25 + 243.5))) * 50 / (273.15 + 25) ∧
      2.1674 * (6.112 * Real.exp ((17.67 * 25) / (25 + 243.5))) * 50 / (273.15 + 25) ≤
        (12.0 : ℝ)) ∧
    (∃ x : ℝ,
      getAbsoluteHumidity Real.exp (scripted [0x8A, 0x4A, 0xD1, 0x00, 0x64, 0xC7]) =
        some (some x, scriptedDone) ∧ 11.0 ≤ x ∧ x ≤ 12.0) := by
  have b1 := magnus_bounds exp_magnus_25_lower exp_magnus_25_upper
    (by norm_num : (298.15 : ℝ) ≤ 273.15 + 25) (by norm_num : (273.15 : ℝ) + 25 ≤ 298.16)
  have b2 := magnus_bounds exp_magnus_19082_lower exp_magnus_19082_upper
    (by norm_num : (298.15 : ℝ) ≤ 273.15 + 4001 / 160)
    (by norm_num : (273.15 : ℝ) + 4001 / 160 ≤ 298.16)
  refine ⟨fun self self1 T RH h => ?_, b1, ⟨_, getAbsoluteHumidity_19082, b2⟩⟩
  simp only [getAbsoluteHumidity, h]

/-- C15, instance: over the reals the image with two correct blocks for the raw values 0x4400
and 0x6400 is read as -1.15 degrees Celsius and 50 percent, and `getAbsoluteHumidity` returns
the formula at these two values. -/
theorem absoluteHumidity_25_50_witness :
    read (scripted [0x00, 0x44, 0x23, 0x00, 0x64, 0xC7]) (0 : ℝ) 0 =
        some ⟨true, -1.15, 50, scriptedDone⟩ ∧
      getAbsoluteHumidity Real.exp (scripted [0x00, 0x44, 0x23, 0x00, 0x64, 0xC7]) =
        some (some (2.1674 * (6.112 * Real.exp ((17.67 * (-1.15)) / (-1.15 + 243.5))) * 50 /
          (273.15 + -1.15)), scriptedDone) :=
  have h : read (scripted [0x00, 0x44, 0x23, 0x00, 0x64, 0xC7]) (0 : ℝ) 0 =
      some ⟨true, -1.15, 50, scriptedDone⟩ := by
    rw [read_of_readRaw_true (readRaw_good 0 0)]
    have e1 : (17408 &&& 0xFFFF : Nat) = 17408 := by decide
    have e2 : (25600 &&& 0xFFFF : Nat) = 25600 := by decide
    rw [e1, e2]
    norm_num
  ⟨h, absoluteHumidity_25_50.1 _ _ _ _ h⟩

/-- C16. Sub-blocks are validated independently and either failure fails the read: after a
successful six-byte bus read, `readRaw` returns `true` if and only if bytes 0 to 2 on their own
have bit 0 of the third byte set and its upper seven bits equal to `getCRC7` of their 17-bit
value, and bytes 3 to 5 on their own satisfy the same condition; on success `temperature_raw`
is built from bytes 0 and 1 only and `humidity_raw` from bytes 3 and 4 only; when the bus read
fails, `readRaw` returns `false`. -/
theorem readRaw_validates_blocks_independently (self : ENS210_7Semi) (t0 u0 : Nat) :
    (∀ buf self1,
      readReg self ENS210_REG_T_VAL (List.replicate 6 0) 6 = some (false, buf, self1) →
        readRaw self t0 u0 = some ⟨false, t0, u0, self1⟩) ∧
    (∀ b0 b1 b2 b3 b4 b5 self1,
      readReg self ENS210_REG_T_VAL (List.replicate 6 0) 6 =
          some (true, [b0, b1, b2, b3, b4, b5], self1) →
        ∃ r, readRaw self t0 u0 = some r ∧ r.self = self1 ∧
          (r.ok = true ↔
            (b2 &&& 1 = 1 ∧ b2 >>> 1 = getCRC7 ((((b2 &&& 1) <<< 16) ||| (b1 <<< 8)) ||| b0)) ∧
            (b5 &&& 1 = 1 ∧ b5 >>> 1 = getCRC7 ((((b5 &&& 1) <<< 16) ||| (b4 <<< 8)) ||| b3))) ∧
          (r.ok = true →
            r.temperature_raw = (b1 <<< 8) ||| b0 ∧ r.humidity_raw = (b4 <<< 8) ||| b3)) := by
  refine ⟨fun buf self1 h => readRaw_of_readReg_false h t0 u0, ?_⟩
  intro b0 b1 b2 b3 b4 b5 self1 h
  obtain ⟨c0, c1, c2, c3, c4, c5, hb, h0, h1, h2, h3, h4, h5⟩ := readReg_image h
  simp only [List.cons.injEq, and_true] at hb
  obtain ⟨rfl, rfl, rfl, rfl, rfl, rfl⟩ := hb
  have hm2 : b2 % 2 < 2 := Nat.mod_lt _ (by decide)
  have hm5 : b5 % 2 < 2 := Nat.mod_lt _ (by decide)
  rw [readRaw_of_image h h0 h1 h2 h3 h4 h5, word17_eq b2 h0 h1, word17_eq b5 h3 h4,
    value16_eq h0, value16_eq h3, Nat.and_one_is_mod, Nat.and_one_is_mod,
    Nat.shiftRight_eq_div_pow, Nat.shiftRight_eq_div_pow]
  by_cases c2 : b2 % 2 = 0
  · rw [if_pos (Or.inl c2)]
    refine ⟨_, rfl, rfl, ?_, by simp⟩
    simp only [Bool.false_eq_true, false_iff]
    omega
  · have e2 : b2 % 2 = 1 := by omega
    rw [e2]
    by_cases d2 : getCRC7 (65536 + b1 * 256 + b0) = b2 / 2
    · rw [if_neg (by simp [c2, d2, e2])]
      by_cases c5 : b5 % 2 = 0
      · rw [if_pos (Or.inl c5)]
        refine ⟨_, rfl, rfl, ?_, by simp⟩
        simp only [Bool.false_eq_true, false_iff]
        omega
      · have e5 : b5 % 2 = 1 := by omega
        rw [e5]
        by_cases d5 : getCRC7 (65536 + b4 * 256 + b3) = b5 / 2
        · rw [if_neg (by simp [c5, d5, e5])]
          refine ⟨_, rfl, rfl, ?_, fun _ => ⟨rfl, rfl⟩⟩
          simp only [true_iff, Nat.one_mul, pow_one]
          exact ⟨⟨trivial, d2.symm⟩, ⟨trivial, d5.symm⟩⟩
        · rw [if_pos (Or.inr d5)]
          refine ⟨_, rfl, rfl, ?_, by simp⟩
          simp only [Bool.false_eq_true, false_iff, Nat.one_mul, pow_one]
          intro hc
          exact d5 hc.2.2.symm
    · rw [if_pos (Or.inr d2)]
      refine ⟨_, rfl, rfl, ?_, by simp⟩
      simp only [Bool.false_eq_true, false_iff, Nat.one_mul, pow_one]
      intro hc
      exact d2 hc.1.2.symm

/-- C16, instance: a bus whose read is not acknowledged, and a bus that delivers an image with
two correct blocks. -/
theorem readRaw_validates_blocks_independently_witness :
    (readReg (onBus [2] []) ENS210_REG_T_VAL (List.replicate 6 0) 6 =
        some (false, List.replicate 6 0,
          ⟨0x43, some ⟨[], [], [],
            [WireOp.beginTransmission 0x43, WireOp.write 0x30, WireOp.endTransmission false]⟩, 0⟩) ∧
      readRaw (onBus [2] []) 7 9 =
        some ⟨false, 7, 9,
          ⟨0x43, some ⟨[], [], [],
            [WireOp.beginTransmission 0x43, WireOp.write 0x30, WireOp.endTransmission false]⟩,
            0⟩⟩) ∧
    (readReg (scripted [0x00, 0x44, 0x23, 0x00, 0x64, 0xC7]) ENS210_REG_T_VAL
        (List.replicate 6 0) 6 =
          some (true, [0x00, 0x44, 0x23, 0x00, 0x64, 0xC7], scriptedDone) ∧
      ∃ r, readRaw (scripted [0x00, 0x44, 0x23, 0x00, 0x64, 0xC7]) 7 9 = some r ∧
        r.self = scriptedDone ∧
        (r.ok = true ↔
          (0x23 &&& 1 = 1 ∧
            0x23 >>> 1 = getCRC7 ((((0x23 &&& 1) <<< 16) ||| (0x44 <<< 8)) ||| 0x00)) ∧
          (0xC7 &&& 1 = 1 ∧
            0xC7 >>> 1 = getCRC7 ((((0xC7 &&& 1) <<< 16) ||| (0x64 <<< 8)) ||| 0x00))) ∧
        (r.ok = true →
          r.temperature_raw = (0x44 <<< 8) ||| 0x00 ∧ r.humidity_raw = (0x64 <<< 8) ||| 0x00)) :=
  have h1 : readReg (onBus [2] []) ENS210_REG_T_VAL (List.replicate 6 0) 6 =
      some (false, List.replicate 6 0,
        ⟨0x43, some ⟨[], [], [],
          [WireOp.beginTransmission 0x43, WireOp.write 0x30, WireOp.endTransmission false]⟩,
          0⟩) := by decide
  have h2 : readReg (scripted [0x00, 0x44, 0x23, 0x00, 0x64, 0xC7]) ENS210_REG_T_VAL
      (List.replicate 6 0) 6 =
        some (true, [0x00, 0x44, 0x23, 0x00, 0x64, 0xC7], scriptedDone) := by decide
  ⟨⟨h1, (readRaw_validates_blocks_independently (onBus [2] []) 7 9).1 _ _ h1⟩,
    ⟨h2, (readRaw_validates_blocks_independently
      (scripted [0x00, 0x44, 0x23, 0x00, 0x64, 0xC7]) 7 9).2 _ _ _ _ _ _ _ h2⟩⟩

/-- C17. The division loop of `getCRC7` has a fixed iteration count: for every input the loop
terminates after exactly 17 iterations, which test bit 23 down to bit 7 of the working register
in this order, and the run leaves the register from which `getCRC7` takes its result. -/
theorem getCRC7_seventeen_iterations (val : Nat) :
    (getCRC7.iterations val).2 =
        [2 ^ 23, 2 ^ 22, 2 ^ 21, 2 ^ 20, 2 ^ 19, 2 ^ 18, 2 ^ 17, 2 ^ 16, 2 ^ 15, 2 ^ 14, 2 ^ 13,
          2 ^ 12, 2 ^ 11, 2 ^ 10, 2 ^ 9, 2 ^ 8, 2 ^ 7] ∧
      (getCRC7.iterations val).2.length = 17 ∧
      getCRC7 val = ((getCRC7.iterations val).1 &&& 127) % 256 := by
  have hb : (65536 <<< 7) % 2 ^ 32 = 2 ^ (17 + 6) := by decide
  have hp : ((((137 : Nat) <<< 9) % 2 ^ 32) <<< 7) % 2 ^ 32 = (137 <<< 17) >>> 1 := by decide
  have h := loopTrace_eq 17 (le_refl _) ((((val % 2 ^ 32) <<< 7) % 2 ^ 32) ||| 127)
  have e : getCRC7.iterations val =
      (crcSteps 17 ((((val % 2 ^ 32) <<< 7) % 2 ^ 32) ||| 127),
        (List.range 17).reverse.map (fun i => 2 ^ (i + 7))) := by
    simp only [getCRC7.iterations]
    rw [hb, hp, h]
  have hl : (List.range 17).reverse.map (fun i => 2 ^ (i + 7)) =
      [2 ^ 23, 2 ^ 22, 2 ^ 21, 2 ^ 20, 2 ^ 19, 2 ^ 18, 2 ^ 17, 2 ^ 16, 2 ^ 15, 2 ^ 14, 2 ^ 13,
        2 ^ 12, 2 ^ 11, 2 ^ 10, 2 ^ 9, 2 ^ 8, 2 ^ 7] := by decide
  rw [e, getCRC7_eq_crcSteps, hl]
  exact ⟨rfl, rfl, rfl⟩

/-- C18. The decoder detects every one-bit and two-bit corruption of a sub-block: starting from
the correctly constructed block for a 16-bit value `V`, flipping any one bit `p` or any two
distinct bits `p`, `q` among its 24 bits (value bits, valid bit, checksum bits) yields a block
whose decoding in `readRaw` fails, in the temperature position as well as in the humidity
position. -/
theorem readRaw_detects_light_corruption (self self1 : ENS210_7Semi) (V p q E : Nat)
    (image other : List Nat) (t0 u0 : Nat) (hV : V < 65536) (hp : p < 24) (hq : q < 24)
    (hE : E = 1 <<< p ∨ (p ≠ q ∧ E = (1 <<< p) ^^^ (1 <<< q)))
    (h : readReg self ENS210_REG_T_VAL (List.replicate 6 0) 6 = some (true, image, self1))
    (himage : image = wordBytes (blockWord V ^^^ E) ++ other ∨
      image = other ++ wordBytes (blockWord V ^^^ E)) :
    wordBytes (blockWord V) = encodeBlock V ∧
      ∃ r, readRaw self t0 u0 = some r ∧ r.ok = false := by
  refine ⟨wordBytes_blockWord V hV, ?_⟩
  have hrej := corrupted_block_rejected hV hp hq hE
  obtain ⟨b0, b1, b2, b3, b4, b5, hb, -⟩ := readReg_image h
  rw [hb] at h
  rcases himage with hi | hi
  · rw [hi, wordBytes] at hb
    simp only [List.cons_append, List.nil_append, List.cons.injEq] at hb
    obtain ⟨e0, e1, e2, -⟩ := hb
    rw [e0, e1, e2] at hrej
    exact readRaw_of_rejected h (Or.inl hrej) t0 u0
  · rw [hi, wordBytes] at hb
    have hlen : other.length = 3 := by
      have := congrArg List.length hb
      simp at this
      omega
    match other, hlen, hb with
    | [c0, c1, c2], _, hb =>
      simp only [List.cons_append, List.nil_append, List.cons.injEq] at hb
      obtain ⟨-, -, -, e3, e4, e5, -⟩ := hb
      rw [e3, e4, e5] at hrej
      exact readRaw_of_rejected h (Or.inr hrej) t0 u0

/-- C18, instance: value bit 3 and checksum bit 3 (bit 20 of the block) of the block for 17408
are flipped, the block sitting in the temperature position. -/
theorem readRaw_detects_light_corruption_witness :
    (17408 < 65536 ∧ 3 < 24 ∧ 20 < 24 ∧
      ((1 <<< 3) ^^^ (1 <<< 20) = 1 <<< 3 ∨
        (3 ≠ 20 ∧ (1 <<< 3) ^^^ (1 <<< 20) = (1 <<< 3) ^^^ (1 <<< 20))) ∧
      readReg (scripted [0x08, 0x44, 0x33, 0x00, 0x64, 0xC7]) ENS210_REG_T_VAL
        (List.replicate 6 0) 6 =
          some (true, [0x08, 0x44, 0x33, 0x00, 0x64, 0xC7], scriptedDone) ∧
      ([0x08, 0x44, 0x33, 0x00, 0x64, 0xC7] =
          wordBytes (blockWord 17408 ^^^ ((1 <<< 3) ^^^ (1 <<< 20))) ++ [0x00, 0x64, 0xC7] ∨
        [0x08, 0x44, 0x33, 0x00, 0x64, 0xC7] =
          [0x00, 0x64, 0xC7] ++ wordBytes (blockWord 17408 ^^^ ((1 <<< 3) ^^^ (1 <<< 20))))) ∧
    (wordBytes (blockWord 17408) = encodeBlock 17408 ∧
      ∃ r, readRaw (scripted [0x08, 0x44, 0x33, 0x00, 0x64, 0xC7]) 7 9 = some r ∧
        r.ok = false) :=
  have hE : (1 <<< 3) ^^^ (1 <<< 20) = 1 <<< 3 ∨
      (3 ≠ 20 ∧ (1 <<< 3) ^^^ (1 <<< 20) = (1 <<< 3) ^^^ (1 <<< 20)) :=
    Or.inr ⟨by decide, rfl⟩
  have h : readReg (scripted [0x08, 0x44, 0x33, 0x00, 0x64, 0xC7]) ENS210_REG_T_VAL
      (List.replicate 6 0) 6 =
        some (true, [0x08, 0x44, 0x33, 0x00, 0x64, 0xC7], scriptedDone) := by decide
  have hi : [0x08, 0x44, 0x33, 0x00, 0x64, 0xC7] =
        wordBytes (blockWord 17408 ^^^ ((1 <<< 3) ^^^ (1 <<< 20))) ++ [0x00, 0x64, 0xC7] ∨
      [0x08, 0x44, 0x33, 0x00, 0x64, 0xC7] =
        [0x00, 0x64, 0xC7] ++ wordBytes (blockWord 17408 ^^^ ((1 <<< 3) ^^^ (1 <<< 20))) := by
    rw [blockWord_17408]
    decide
  ⟨⟨by decide, by decide, by decide, hE, h, hi⟩,
    readRaw_detects_light_corruption _ _ 17408 3 20 _ _ [0x00, 0x64, 0xC7] 7 9 (by decide)
      (by decide) (by decide) hE h hi⟩

/-- C19. `getCRC7` ignores everything above the 17-bit payload: for every input (taken modulo
`2 ^ 32`, shifts wrapping at 32 bits), `getCRC7 val = getCRC7 (val & 0x1FFFF)`, and the result
is at most 127. -/
theorem getCRC7_ignores_upper_bits (val : Nat) :
    getCRC7 val = getCRC7 (val &&& 0x1FFFF) ∧ getCRC7 val ≤ 127 := by
  refine ⟨?_, Nat.le_of_lt_succ (getCRC7_lt val)⟩
  have em : val &&& 0x1FFFF = val % 2 ^ 17 := Nat.and_pow_two_sub_one_eq_mod val 17
  have hlt : val % 2 ^ 17 < 2 ^ 17 := Nat.mod_lt _ (by decide)
  rw [em, getCRC7_of_lt _ hlt, getCRC7_eq_crcSteps, shl7_or_127]
  have e1 : ((val % 2 ^ 32) <<< 7) % 2 ^ 32 = 2 ^ 7 * (val % 2 ^ 25) := by
    rw [Nat.shiftLeft_eq]
    omega
  have e2 : 2 ^ 7 * (val % 2 ^ 25) ||| 127 = 2 ^ 7 * (val % 2 ^ 25) + 127 :=
    (Nat.mul_add_lt_is_or (by decide : 127 < 2 ^ 7) _).symm
  have e3 : 2 ^ 7 * (val % 2 ^ 25) + 127 =
      2 ^ 24 * (val / 2 ^ 17 % 2 ^ 8) + (128 * (val % 2 ^ 17) + 127) := by omega
  have hlo : 128 * (val % 2 ^ 17) + 127 < 2 ^ 24 := by omega
  rw [e1, e2, e3, mul_add_eq_xor hlo, crcSteps_xor]
  have hhi : crcSteps 17 (2 ^ 24 * (val / 2 ^ 17 % 2 ^ 8)) = 2 ^ 24 * (val / 2 ^ 17 % 2 ^ 8) := by
    apply crcSteps_of_bits_clear
    intro j _ h2
    rw [Nat.testBit_mul_pow_two]
    simp
    omega
  have hr := crcSteps_lt 17 _ hlo
  rw [hhi, Nat.and_xor_distrib_right]
  have h0 : 2 ^ 24 * (val / 2 ^ 17 % 2 ^ 8) &&& 127 = 0 := by
    have := Nat.and_pow_two_sub_one_eq_mod (2 ^ 24 * (val / 2 ^ 17 % 2 ^ 8)) 7
    rw [show (127 : Nat) = 2 ^ 7 - 1 from rfl, this]
    omega
  have h1 : crcSteps 17 (128 * (val % 2 ^ 17) + 127) &&& 127 =
      crcSteps 17 (128 * (val % 2 ^ 17) + 127) :=
    Nat.and_pow_two_sub_one_of_lt_two_pow (n := 7) hr
  rw [h0, h1, Nat.zero_xor]
  exact Nat.mod_eq_of_lt (by omega)
